import Mathlib

/-!
Shallow embedding of the MDirectory data-processing / search / import-export
module (`src/unnamed/part_000`, with UI glue in `src/app.js`).

JavaScript strings are modelled as `List Char` (`Str`); JS objects used as
string- or id-keyed maps are modelled as association lists in insertion
order; JS `Set`s are modelled as lists deduplicated on first occurrence.
Truthiness of a JS string is modelled as non-emptiness, and `undefined`
for an optional numeric/string field as `Option`.
-/

set_option maxHeartbeats 1000000

abbrev Str := List Char

/-- Convert a Lean string literal to the `List Char` model. -/
def lit (s : String) : Str := s.data

/-- ASCII fragment of the JS regex class `\s` (space, tab, LF, VT, FF, CR). -/
def isWhite (c : Char) : Bool :=
  c.toNat = 32 || c.toNat = 9 || c.toNat = 10 || c.toNat = 11 || c.toNat = 12 || c.toNat = 13

/-- Separator class of `split(/[\s,]+/)` used on search queries. -/
def isQuerySep (c : Char) : Bool := isWhite c || c.toNat = 44

/-- Separator class of `split(/[\s\-]+/)` used on compound terms and category tags. -/
def isWordSep (c : Char) : Bool := isWhite c || c.toNat = 45

/-- Separator class of `split(/[\s\-\/]+/)` used on room-type labels. -/
def isTypeSep (c : Char) : Bool := isWhite c || c.toNat = 45 || c.toNat = 47

/-- First character is a digit, JS `/^\d/.test(s)`. -/
def startsDigit : Str → Bool
  | [] => false
  | c :: _ => 48 ≤ c.toNat && c.toNat ≤ 57

/-- JS `String.prototype.toLowerCase`, restricted to the basic-latin range
(the only range exercised by the dataset model). -/
def lowerStr (s : Str) : Str := s.map Char.toLower

/-- JS `String.prototype.trim` (ASCII whitespace). -/
def trimStr (s : Str) : Str := ((s.dropWhile isWhite).reverse.dropWhile isWhite).reverse

/-- JS `str.split(/<sep>+/)`: splits on maximal runs of separator characters,
keeping the (possibly empty) piece before the first run and after the last.
The accumulator holds the current piece (reversed); `none` means a separator
run is being skipped after a piece was emitted. -/
def jsSplitAux (sep : Char → Bool) : Option Str → Str → List Str
  | acc, [] => [(acc.getD []).reverse]
  | acc, c :: cs =>
    if sep c then
      match acc with
      | some a => a.reverse :: jsSplitAux sep none cs
      | none => jsSplitAux sep none cs
    else jsSplitAux sep (some (c :: acc.getD [])) cs

def jsSplit (sep : Char → Bool) (s : Str) : List Str := jsSplitAux sep (some []) s

/-- JS `tag.startsWith(pre)`. -/
def strStarts (hay pre : Str) : Bool := pre.isPrefixOf hay

/-- JS `hay.includes(sub)` (substring containment). -/
def strIncludes (hay sub : Str) : Bool := decide (sub <:+: hay)

/-- `[...new Set(l)]`: removes duplicates keeping first-occurrence order. -/
def dedupFirstAux (seen : List Str) : List Str → List Str
  | [] => []
  | x :: xs => if x ∈ seen then dedupFirstAux seen xs else x :: dedupFirstAux (x :: seen) xs

def dedupFirst (l : List Str) : List Str := dedupFirstAux [] l

/-- JS `Set.prototype.add` on a list model (append if not present). -/
def addSet (l : List Str) (x : Str) : List Str := if x ∈ l then l else l ++ [x]

/-- Association-list lookup, JS `obj[k]` returning `undefined` when absent. -/
def aGet {κ ν : Type} [DecidableEq κ] (m : List (κ × ν)) (k : κ) : Option ν :=
  (m.find? (fun p => decide (p.1 = k))).map (·.2)

/-- `obj[k]` with a default for the `undefined` case. -/
def aGetD {κ ν : Type} [DecidableEq κ] (m : List (κ × ν)) (k : κ) (d : ν) : ν :=
  (aGet m k).getD d

/-- JS `obj[k] = v`: overwrite in place, or append a new key. -/
def aSet {κ ν : Type} [DecidableEq κ] (m : List (κ × ν)) (k : κ) (v : ν) : List (κ × ν) :=
  if m.any (fun p => decide (p.1 = k)) then
    m.map (fun p => if p.1 = k then (k, v) else p)
  else m ++ [(k, v)]

/-- JS object spread `{...a, ...b}`: `a`'s keys first (values overridden by
`b` where present), then `b`'s new keys in order. -/
def spreadMerge {κ ν : Type} [DecidableEq κ] (a b : List (κ × ν)) : List (κ × ν) :=
  a.map (fun p => match aGet b p.1 with | some v => (p.1, v) | none => p)
    ++ b.filter (fun p => (aGet a p.1).isNone)

/-- Lexicographic comparison on code points, matching the default JS
`Array.prototype.sort` comparison of strings. -/
def strLe : Str → Str → Bool
  | [], _ => true
  | _ :: _, [] => false
  | a :: s, b :: t =>
    if a.toNat < b.toNat then true
    else if b.toNat < a.toNat then false
    else strLe s t

def strLeP (a b : Str) : Prop := strLe a b = true

instance : DecidableRel strLeP := fun a b => by unfold strLeP; infer_instance

/-- JS default-comparator `.sort()` on a string array, modelled by insertion
sort with the code-point order. -/
def sortStr (l : List Str) : List Str := List.insertionSort strLeP l

/-- Decimal rendering of a JS number holding a non-negative integer
(`(n).toString()`). -/
def natToStr (n : Nat) : Str := (Nat.repr n).data

/-- `Number(s)` for the digit strings the floor facet sorts; non-numeric
strings (JS `NaN`, compared as `0` by the sort callback) map to `0`. -/
def numVal (s : Str) : Nat :=
  if s ≠ [] ∧ s.all (fun c => 48 ≤ c.toNat && c.toNat ≤ 57) then
    s.foldl (fun a c => a * 10 + (c.toNat - 48)) 0
  else 0

/-- Numeric comparator `(a, b) => Number(a) - Number(b)` as a `≤` test. -/
def floorLe (a b : Str) : Prop := numVal a ≤ numVal b

instance : DecidableRel floorLe := fun a b => by unfold floorLe; infer_instance

/-- JS `.sort((a, b) => Number(a) - Number(b))`. -/
def sortFloors (l : List Str) : List Str := List.insertionSort floorLe l

/-- A rich custom tag.  `createRichTag` lives in a utils file that is not part
of `src/`; per the spec (§3) a Custom Tag carries a name, type, description,
link, contact, image URL, colour, a creation timestamp and a synthetic id. -/
structure RichTag where
  name : Str
  type : Str
  description : Str
  link : Str
  contact : Str
  imageUrl : Str
  color : Str
  created : Nat
  id : Nat
deriving DecidableEq

/-- Modelled from the spec: `createRichTag` (utils file, missing from `src/`)
normalises the seven user-visible fields into a rich tag; the creation
timestamp and synthetic id are opaque to every claim and fixed to `0`. -/
def createRichTag (name type description link contact imageUrl color : Str) : RichTag :=
  { name := name, type := type, description := description, link := link,
    contact := contact, imageUrl := imageUrl, color := color, created := 0, id := 0 }

/-- A raw spreadsheet row (the fields `processRoomData` reads; unknown extra
columns pass through untouched and are not modelled).  A JS `undefined` or
`null` floor is `none`; for the string fields the empty string doubles as the
falsy `undefined`, matching every truthiness test in the source. -/
structure Row where
  rmnbr : Str
  floor : Option Str
  bld_descrshort : Str
  rmrecnbr : Str
  rmtyp_descrshort : Str
  rmsubtyp_descrshort : Str
  dept_descr : Str
deriving DecidableEq

/-- A processed room record: the raw row spread together with the derived
fields added by `processRoomData`. -/
structure Room where
  rmnbr : Str
  floor : Option Str
  bld_descrshort : Str
  rmrecnbr : Str
  rmtyp_descrshort : Str
  rmsubtyp_descrshort : Str
  dept_descr : Str
  id : Nat
  typeFull : Str
  tags : List Str
  mgisLink : Str
  building : Str
deriving DecidableEq

structure Filters where
  building : Str
  floor : Str
  tags : List Str
deriving DecidableEq

/-- The process-wide mutable `state` object (the fields the embedded module
reads or writes). -/
structure AppState where
  processedData : List Room
  customTags : List (Nat × List RichTag)
  staffTags : List (Nat × List Str)
  buildingColors : List (Str × Str)
  activeFilters : Filters
  searchQuery : Str
  currentViewMode : Str
  resultsPerPage : Nat
  currentPage : Nat
  unmappedAbbreviations : List (Str × Nat)
  availableBuildings : List Str
  availableFloors : List Str
  availableTags : List Str
deriving DecidableEq

/-- Global configuration data living outside `src/`: the user override map
`state.customAbbreviationMappings`, the built-in `abbreviationMap`, the
`fullReplacements` table, the `tagRules` pattern list (a regex is modelled as
its match predicate on strings), and the external helpers `generateMgisLink`
and `assignBuildingColor` the merger calls out to. -/
structure Config where
  customAbbrev : List (Str × Str)
  abbrevMap : List (Str × Str)
  fullRepl : List (Str × Str)
  tagRules : List ((Str → Bool) × Str)
  mgisLink : Row → Str
  assignColor : Str → Nat → Str

/-- `state.customTags[room.id] || []`. -/
def customTagsOf (st : AppState) (id : Nat) : List RichTag := aGetD st.customTags id []

/-- `state.staffTags[room.id] || []`. -/
def staffTagsOf (st : AppState) (id : Nat) : List Str := aGetD st.staffTags id []

/-- JS `String.prototype.replace(pat, '')` for a plain-string pattern:
removes the first occurrence only. -/
def removeFirst (pat : Str) : Str → Str
  | [] => []
  | c :: cs =>
    if pat.isPrefixOf (c :: cs) then (c :: cs).drop pat.length
    else c :: removeFirst pat cs

/-- `createUnifiedTags(room)` (src/unnamed/part_000:363-461): synthesizes the
flat lowercase token vocabulary of one room, deduplicated in first-push
order (`[...new Set(tags)]`). -/
def createUnifiedTags (st : AppState) (room : Room) : List Str :=
  let tags : List Str := []
  -- Building tags
  let tags := tags ++
    (if room.building ≠ [] then
      [lowerStr room.building, lit ("building:") ++ lowerStr room.building] ++
        (jsSplit isWhite (lowerStr room.building)).filter (fun w => 1 < w.length)
     else [])
  let tags := tags ++
    (if room.bld_descrshort ≠ [] ∧ room.bld_descrshort ≠ room.building then
      [lowerStr room.bld_descrshort, lit ("building:") ++ lowerStr room.bld_descrshort] ++
        (jsSplit isWhite (lowerStr room.bld_descrshort)).filter (fun w => 1 < w.length)
     else [])
  -- Floor tags (the stored floor value is kept in its `toString` form)
  let tags := tags ++
    (match room.floor with
     | some f => [lit ("floor:") ++ f, 'f' :: f, lit ("level:") ++ f, f]
     | none => [])
  -- Department tags
  let tags := tags ++
    (if room.dept_descr ≠ [] then
      [lowerStr room.dept_descr, lit ("department:") ++ lowerStr room.dept_descr] ++
        (jsSplit isWhite (lowerStr room.dept_descr)).filter (fun w => 2 < w.length)
     else [])
  -- Room type tags
  let tags := tags ++
    (if room.typeFull ≠ [] then
      [lowerStr room.typeFull, lit ("type:") ++ lowerStr room.typeFull] ++
        (jsSplit isTypeSep (lowerStr room.typeFull)).filter (fun w => 2 < w.length)
     else [])
  -- System-generated category tags (`room.tags` is always an array, hence truthy)
  let tags := tags ++
    (room.tags.flatMap (fun tag =>
      [lowerStr tag, lit ("category:") ++ lowerStr tag] ++
        (jsSplit isWordSep (lowerStr tag)).filter (fun w => 2 < w.length)))
  -- Custom tags
  let tags := tags ++
    ((customTagsOf st room.id).flatMap (fun tagObj =>
      (if tagObj.name ≠ [] then
        [lowerStr tagObj.name, lit ("custom:") ++ lowerStr tagObj.name] ++
          (jsSplit isWhite (lowerStr tagObj.name)).filter (fun w => 1 < w.length)
       else []) ++
      (if tagObj.type ≠ [] then [lit ("tagtype:") ++ lowerStr tagObj.type] else []) ++
      (if tagObj.color ≠ [] then [lit ("color:") ++ lowerStr tagObj.color] else [])))
  -- Staff tags
  let tags := tags ++
    ((staffTagsOf st room.id).flatMap (fun staffTag =>
      let name := lowerStr (removeFirst (lit ("Staff: ")) staffTag)
      [name, lit ("staff:") ++ name] ++
        (jsSplit isWhite name).filter (fun w => 1 < w.length)))
  -- Room number variations
  let tags := tags ++
    (if room.rmnbr ≠ [] then
      [lowerStr room.rmnbr, lit ("room:") ++ lowerStr room.rmnbr]
     else [])
  dedupFirst tags

/-- The term list of a query:
`searchQuery.toLowerCase().split(/[\s,]+/).map(t => t.trim()).filter(t => t.length > 0)`.
The `.trim()` step is a no-op here because every whitespace character is
already a separator of the split, so pieces contain none. -/
def searchTerms (q : Str) : List Str :=
  (jsSplit isQuerySep (lowerStr q)).filter (fun t => 0 < t.length)

/-- The compound-term branch of the matcher: split the term on
`/[\s\-]+/` and require every sub-word to have length > 1 and to be
contained in some room tag. -/
def compoundMatch (roomTags : List Str) (term : Str) : Bool :=
  (jsSplit isWordSep term).all
    (fun w => 1 < w.length && roomTags.any (fun t => strIncludes t w))

/-- The per-tag match callback of `searchRoomsByTags`
(src/unnamed/part_000:483-502). -/
def tagMatchesTerm (roomTags : List Str) (term tag : Str) : Bool :=
  if tag = term then true
  else if strStarts tag term && (2 ≤ term.length || startsDigit term) then true
  else if 3 ≤ term.length && strIncludes tag term then true
  else if term.contains '-' || term.contains ' ' then compoundMatch roomTags term
  else false

/-- `searchTerms.every(term => roomTags.some(tag => ...))`, one term. -/
def termMatchesRoom (roomTags : List Str) (term : Str) : Bool :=
  roomTags.any (tagMatchesTerm roomTags term)

/-- `searchRoomsByTags(searchQuery)` (src/unnamed/part_000:464-505). -/
def searchRoomsByTags (st : AppState) (q : Str) : List Room :=
  if q = [] ∨ st.processedData = [] then st.processedData
  else
    let terms := searchTerms q
    if terms = [] then st.processedData
    else
      st.processedData.filter (fun room =>
        let roomTags := createUnifiedTags st room
        terms.all (termMatchesRoom roomTags))

/-- `String(x)` for the optional floor field (`String(undefined)`). -/
def floorToStr : Option Str → Str
  | some f => f
  | none => lit ("undefined")

/-- `[currentQuery, ...state.activeFilters.tags].filter(Boolean).join(' ')`. -/
def combinedTagQuery (st : AppState) : Str :=
  List.intercalate [' ']
    ((st.searchQuery :: st.activeFilters.tags).filter (fun s => decide (s ≠ [])))

/-- `data_getFilteredData()` (src/unnamed/part_000:508-527).  The write to
`state.currentFilteredData` is a pure cache of the returned list and is not
modelled. -/
def data_getFilteredData (st : AppState) : List Room :=
  let result := searchRoomsByTags st st.searchQuery
  let result :=
    if st.activeFilters.building ≠ [] then
      result.filter (fun r => decide (r.building = st.activeFilters.building))
    else result
  let result :=
    if st.activeFilters.floor ≠ [] then
      result.filter (fun r => decide (floorToStr r.floor = st.activeFilters.floor))
    else result
  let result :=
    if st.activeFilters.tags ≠ [] then
      searchRoomsByTags st (combinedTagQuery st)
    else result
  result

/-- `tag.split(':', 2)[1]`: the text between the first colon and the next
colon or the end of the string. -/
def splitValue (tag : Str) : Str :=
  ((tag.dropWhile (fun c => decide (c ≠ ':'))).drop 1).takeWhile (fun c => decide (c ≠ ':'))

/-- The cap constant of `buildUnifiedAutocomplete`. -/
def autocompleteLimit : Nat := 5000

/-- One `tags.forEach` iteration of `buildUnifiedAutocomplete`: the size
guard is checked once, then the tag and (for a qualified tag) its bare value
are both added. -/
def addTagAndValue (sugg : List Str) (tag : Str) : List Str :=
  if sugg.length < autocompleteLimit then
    let sugg := addSet sugg tag
    if tag.contains ':' then addSet sugg (splitValue tag) else sugg
  else sugg

/-- One room iteration of `buildUnifiedAutocomplete`. -/
def autoProcessRoom (st : AppState) (sugg : List Str) (room : Room) : List Str :=
  if autocompleteLimit ≤ sugg.length then sugg
  else
    let sugg := (createUnifiedTags st room).foldl addTagAndValue sugg
    if room.rmnbr ≠ [] ∧ sugg.length < autocompleteLimit then addSet sugg room.rmnbr
    else sugg

/-- `buildUnifiedAutocomplete()` (src/unnamed/part_000:535-563). -/
def buildUnifiedAutocomplete (st : AppState) : List Str :=
  sortStr (st.processedData.foldl (autoProcessRoom st) [])

/-- `normalizeAbbreviation(abbr, unmapped)` (src/unnamed/part_000:3-15).
A map hit with a falsy (empty) value falls through, exactly as the JS
truthiness tests do.  Returns the label and the updated counter. -/
def normalizeAbbreviation (cfg : Config) (abbr : Str) (unmapped : List (Str × Nat)) :
    Str × List (Str × Nat) :=
  if abbr = [] then ([], unmapped)
  else if aGetD cfg.customAbbrev abbr [] ≠ [] then (aGetD cfg.customAbbrev abbr [], unmapped)
  else if aGetD cfg.abbrevMap abbr [] ≠ [] then (aGetD cfg.abbrevMap abbr [], unmapped)
  else if ¬ abbr.all isWhite then
    (abbr, aSet unmapped abbr (aGetD unmapped abbr 0 + 1))
  else (abbr, unmapped)

/-- `generateTags(roomType, department)` (src/unnamed/part_000:17-25): the
set of tags of the rules whose pattern matches either label, in rule order,
deduplicated. -/
def generateTags (rules : List ((Str → Bool) × Str)) (roomType department : Str) : List Str :=
  dedupFirst ((rules.filter (fun rule => rule.1 roomType || rule.1 department)).map (·.2))

/-- Accumulator of the row loop in `processRoomData`. -/
structure BatchAcc where
  processed : List Room
  unmapped : List (Str × Nat)
  buildings : List Str
  floors : List Str
  batchTags : List Str
  counter : Nat

/-- One `data.forEach` iteration of `processRoomData`
(src/unnamed/part_000:50-83). -/
def processRow (cfg : Config) (acc : BatchAcc) (row : Row) : BatchAcc :=
  if row.rmnbr = [] ∨ row.floor = none then acc
  else
    let building := if row.bld_descrshort ≠ [] then row.bld_descrshort else lit ("Unknown Building")
    let tn := normalizeAbbreviation cfg row.rmtyp_descrshort acc.unmapped
    let sn := normalizeAbbreviation cfg row.rmsubtyp_descrshort tn.2
    let type := tn.1
    let sub := sn.1
    let full0 := if sub ≠ [] ∧ type ≠ sub then type ++ lit (" - ") ++ sub else type
    let replKey := trimStr (type ++ [' '] ++ sub)
    let full :=
      if aGetD cfg.fullRepl replKey [] ≠ [] then aGetD cfg.fullRepl replKey []
      else if type = sub then type
      else full0
    let rowTags := generateTags cfg.tagRules full row.dept_descr
    { processed := acc.processed ++
        [{ rmnbr := row.rmnbr, floor := row.floor, bld_descrshort := row.bld_descrshort,
           rmrecnbr := row.rmrecnbr, rmtyp_descrshort := row.rmtyp_descrshort,
           rmsubtyp_descrshort := row.rmsubtyp_descrshort, dept_descr := row.dept_descr,
           id := acc.counter, typeFull := full, tags := rowTags,
           mgisLink := cfg.mgisLink row, building := building }],
      unmapped := sn.2,
      buildings := addSet acc.buildings building,
      floors := addSet acc.floors (floorToStr row.floor),
      batchTags := rowTags.foldl addSet acc.batchTags,
      counter := acc.counter + 1 }

/-- The `buildingsArray.forEach` colour-assignment loop
(src/unnamed/part_000:86-90): a building with no (truthy) colour yet is
assigned one, the index argument being the current key count. -/
def assignColors (cfg : Config) (colors : List (Str × Str)) (buildings : List Str) :
    List (Str × Str) :=
  buildings.foldl
    (fun cs b => if aGetD cs b [] ≠ [] then cs else aSet cs b (cfg.assignColor b cs.length))
    colors

/-- `processRoomData(data)` (src/unnamed/part_000:41-102).  The trailing
`createSearchIndex()` call only rebuilds derived caches (the fuzzy index and
the autocomplete vocabulary, both recomputable by `buildUnifiedAutocomplete`)
and is not part of the state model. -/
def batchAcc (cfg : Config) (st : AppState) (data : List Row) : BatchAcc :=
  data.foldl (processRow cfg)
    { processed := [], unmapped := [], buildings := [], floors := [], batchTags := [],
      counter := st.processedData.length }

def processRoomData (cfg : Config) (st : AppState) (data : List Row) : AppState :=
  let acc := batchAcc cfg st data
  { st with
    processedData := st.processedData ++ acc.processed,
    unmappedAbbreviations := spreadMerge st.unmappedAbbreviations acc.unmapped,
    buildingColors := assignColors cfg st.buildingColors acc.buildings,
    availableBuildings := sortStr (dedupFirst (st.availableBuildings ++ acc.buildings)),
    availableFloors := sortFloors (dedupFirst (st.availableFloors ++ acc.floors)),
    availableTags := sortStr (dedupFirst (st.availableTags ++ acc.batchTags)),
    currentPage := 1 }

/-- Modelled from the spec: the initial process-wide state (the `state`
object lives in a state file missing from `src/`); the dataset starts empty
and the view defaults match the fallbacks `importSession` uses. -/
def initialState : AppState :=
  { processedData := [], customTags := [], staffTags := [], buildingColors := [],
    activeFilters := ⟨[], [], []⟩, searchQuery := [], currentViewMode := lit ("desktop"),
    resultsPerPage := 10, currentPage := 1, unmappedAbbreviations := [],
    availableBuildings := [], availableFloors := [], availableTags := [] }

/-- A sequence of merge batches applied to the fresh state
(each batch is one `processRoomData` call). -/
def applyMerges (cfg : Config) (batches : List (List Row)) : AppState :=
  batches.foldl (processRoomData cfg) initialState

/-- The per-room reference block of a custom-tag export document. -/
structure RoomRef where
  rmnbr : Str
  typeFull : Str
  rmrecnbr : Str
  building : Str
deriving DecidableEq

/-- One tag entry of an imported custom-tag document: a plain string or a
rich object. -/
inductive TagEntry where
  | plain (s : Str)
  | rich (name type description link contact imageUrl color : Str)
deriving DecidableEq

/-- A parsed custom-tag document: `{customTags, roomReference}` keyed by the
exporting session's room ids (strings). -/
structure ImportDoc where
  customTags : List (Str × List TagEntry)
  roomReference : List (Str × RoomRef)
deriving DecidableEq

/-- Normalisation of one tag entry (src/unnamed/part_000:272-274). -/
def normalizeTagEntry : TagEntry → RichTag
  | .plain s => createRichTag s (lit ("simple")) [] [] [] [] (lit ("blue"))
  | .rich name type description link contact imageUrl color =>
      createRichTag name type description link contact imageUrl color

/-- `state.processedData.find(r => String(r.rmrecnbr) === String(v))`. -/
def findByRmrecnbr (rooms : List Room) (v : Str) : Option Room :=
  rooms.find? (fun r => decide (r.rmrecnbr = v))

/-- `state.processedData.find(r => r.id.toString() === key.toString())`. -/
def findById (rooms : List Room) (key : Str) : Option Room :=
  rooms.find? (fun r => decide (natToStr r.id = key))

/-- `find(r => r.rmnbr === ref.rmnbr && (r.bld_descrshort === ref.building || r.building === ref.building))`. -/
def findByRmnbrBuilding (rooms : List Room) (rmnbr building : Str) : Option Room :=
  rooms.find? (fun r =>
    decide (r.rmnbr = rmnbr) && (decide (r.bld_descrshort = building) || decide (r.building = building)))

/-- `find(r => r.rmnbr === ref.rmnbr)`. -/
def findByRmnbr (rooms : List Room) (rmnbr : Str) : Option Room :=
  rooms.find? (fun r => decide (r.rmnbr = rmnbr))

/-- The target-room resolution cascade of `importCustomTags`
(src/unnamed/part_000:261-267). -/
def resolveTargetRoom (rooms : List Room) (roomRef : Option RoomRef) (key : Str) : Option Room :=
  let t :=
    match roomRef with
    | some ref => if ref.rmrecnbr ≠ [] then findByRmrecnbr rooms ref.rmrecnbr else none
    | none => none
  let t :=
    match t with
    | some r => some r
    | none => findById rooms key
  let t :=
    match t with
    | some r => some r
    | none =>
      match roomRef with
      | some ref =>
        if ref.rmnbr ≠ [] ∧ ref.building ≠ [] then
          findByRmnbrBuilding rooms ref.rmnbr ref.building
        else none
      | none => none
  match t with
  | some r => some r
  | none =>
    match roomRef with
    | some ref => if ref.rmnbr ≠ [] then findByRmnbr rooms ref.rmnbr else none
    | none => none

/-- The `tagsToImport.forEach` loop for one resolved room
(src/unnamed/part_000:271-279): duplicate names (strict `===` comparison)
are not re-added and do not count as imported. -/
def importTagsForRoom (cur : List RichTag) (imported : Nat) (entries : List TagEntry) :
    List RichTag × Nat :=
  entries.foldl
    (fun acc e =>
      let rich := normalizeTagEntry e
      if acc.1.any (fun ex => decide (ex.name = rich.name)) then acc
      else (acc.1 ++ [rich], acc.2 + 1))
    (cur, imported)

/-- One `Object.keys(importData.customTags).forEach` iteration of
`importCustomTags` (src/unnamed/part_000:257-283), acting on
(state, importedCount, skippedCount). -/
def importTagsEntry (doc : ImportDoc) (acc : AppState × Nat × Nat)
    (entry : Str × List TagEntry) : AppState × Nat × Nat :=
  let (st, imported, skipped) := acc
  if entry.2 = [] then acc
  else
    match resolveTargetRoom st.processedData (aGet doc.roomReference entry.1) entry.1 with
    | some target =>
      let res := importTagsForRoom (customTagsOf st target.id) imported entry.2
      ({ st with customTags := aSet st.customTags target.id res.1 }, res.2, skipped)
    | none => (st, imported, skipped + 1)

/-- `importCustomTags(file)` (src/unnamed/part_000:245-294) on an already
parsed document; returns the new state with the imported and skipped counts.
The surrounding UI bookkeeping and the search-index rebuild are not part of
the state model. -/
def importCustomTags (doc : ImportDoc) (st : AppState) : AppState × Nat × Nat :=
  doc.customTags.foldl (importTagsEntry doc) (st, 0, 0)

/-- UTF-8 encoding of one scalar value; `unescape(encodeURIComponent(s))`
turns the string `s` into the string of its UTF-8 bytes. -/
def utf8EncChar (c : Char) : List Nat :=
  let v := c.toNat
  if v < 0x80 then [v]
  else if v < 0x800 then [0xC0 + v / 64, 0x80 + v % 64]
  else if v < 0x10000 then [0xE0 + v / 4096, 0x80 + v / 64 % 64, 0x80 + v % 64]
  else [0xF0 + v / 262144, 0x80 + v / 4096 % 64, 0x80 + v / 64 % 64, 0x80 + v % 64]

def utf8Bytes (s : Str) : List Nat := s.flatMap utf8EncChar

/-- Is a byte a UTF-8 continuation byte (`10xxxxxx`)? -/
def isCont (b : Nat) : Bool := 0x80 ≤ b && b < 0xC0

/-- UTF-8 decoding, the byte-level effect of `decodeURIComponent(escape(s))`
on well-formed input; malformed sequences fail (the JS call would throw).
The decoder is a byte state machine: the state holds the partial scalar
value and the number of continuation bytes still expected. -/
def utf8DecSM : Option (Nat × Nat) → List Nat → Option Str
  | none, [] => some []
  | some _, [] => none
  | none, b :: bs =>
    if b < 0x80 then (utf8DecSM none bs).map (fun s => Char.ofNat b :: s)
    else if b < 0xC0 then none
    else if b < 0xE0 then utf8DecSM (some (b - 0xC0, 1)) bs
    else if b < 0xF0 then utf8DecSM (some (b - 0xE0, 2)) bs
    else if b < 0xF8 then utf8DecSM (some (b - 0xF0, 3)) bs
    else none
  | some (v, n), b :: bs =>
    if isCont b then
      if n = 1 then (utf8DecSM none bs).map (fun s => Char.ofNat (v * 64 + (b - 0x80)) :: s)
      else utf8DecSM (some (v * 64 + (b - 0x80), n - 1)) bs
    else none

def utf8Dec (bs : List Nat) : Option Str := utf8DecSM none bs

/-- The base64 alphabet used by `btoa`/`atob`. -/
def b64Alphabet : Str :=
  lit ("ABCDEFGHIJKLMNOPQRSTUVWXYZabcdefghijklmnopqrstuvwxyz0123456789+/")

def b64Chr (n : Nat) : Char := b64Alphabet.getD n 'A'

def b64Idx (c : Char) : Option Nat := b64Alphabet.indexOf? c

/-- `btoa`: standard base64 with `=` padding, 3 input bytes per 4 output
characters. -/
def b64Enc : List Nat → Str
  | [] => []
  | [b0] => [b64Chr (b0 / 4), b64Chr (b0 % 4 * 16), '=', '=']
  | [b0, b1] => [b64Chr (b0 / 4), b64Chr (b0 % 4 * 16 + b1 / 16), b64Chr (b1 % 16 * 4), '=']
  | b0 :: b1 :: b2 :: rest =>
      b64Chr (b0 / 4) :: b64Chr (b0 % 4 * 16 + b1 / 16) :: b64Chr (b1 % 16 * 4 + b2 / 64) ::
        b64Chr (b2 % 64) :: b64Enc rest

/-- `atob` on well-formed base64 text: four characters per group, the final
group optionally padded with one or two `'='`. -/
def b64Dec : Str → Option (List Nat)
  | [] => some []
  | c0 :: c1 :: c2 :: c3 :: rest =>
    match b64Idx c0, b64Idx c1 with
    | some s0, some s1 =>
      if c2 = '=' ∧ c3 = '=' ∧ rest = [] then some [s0 * 4 + s1 / 16]
      else
        match b64Idx c2 with
        | some s2 =>
          if c3 = '=' ∧ rest = [] then some [s0 * 4 + s1 / 16, s1 % 16 * 16 + s2 / 4]
          else
            match b64Idx c3 with
            | some s3 =>
              (b64Dec rest).map (fun bs =>
                (s0 * 4 + s1 / 16) :: (s1 % 16 * 16 + s2 / 4) :: (s2 % 4 * 64 + s3) :: bs)
            | none => none
        | none => none
    | _, _ => none
  | _ => none

/-- `btoa(unescape(encodeURIComponent(jsonString)))`
(src/unnamed/part_000:311). -/
def encodeText (s : Str) : Str := b64Enc (utf8Bytes s)

/-- `decodeURIComponent(escape(atob(compressedData)))`
(src/unnamed/part_000:326). -/
def decodeText (t : Str) : Option Str := (b64Dec t).bind utf8Dec

/-- The `data` object of a session document (src/unnamed/part_000:303-307). -/
structure SessionData where
  processedData : List Room
  customTags : List (Nat × List RichTag)
  staffTags : List (Nat × List Str)
  buildingColors : List (Str × Str)
  activeFilters : Filters
  searchQuery : Str
  currentViewMode : Str
  resultsPerPage : Nat
deriving DecidableEq

/-- A session document `{version, timestamp, type, data}`. -/
structure SessionDoc where
  version : Str
  timestamp : Str
  type : Str
  data : SessionData
deriving DecidableEq

/-- Length marker of the spec-modelled serializer: a unary run of `'1'`
closed by `':'` (self-delimiting, so no escaping is ever needed). -/
def pLen (n : Nat) : Str := List.replicate n '1' ++ [':']

def pStr (s : Str) : Str := pLen s.length ++ s

def pNat (n : Nat) : Str := pLen n

def pList {α : Type} (pr : α → Str) (l : List α) : Str :=
  pLen l.length ++ (l.map pr).flatten

def pOpt {α : Type} (pr : α → Str) : Option α → Str
  | none => ['n']
  | some a => 's' :: pr a

def pPair {α β : Type} (pa : α → Str) (pb : β → Str) (p : α × β) : Str :=
  pa p.1 ++ pb p.2

def pRichTag (t : RichTag) : Str :=
  pStr t.name ++ pStr t.type ++ pStr t.description ++ pStr t.link ++ pStr t.contact ++
    pStr t.imageUrl ++ pStr t.color ++ pNat t.created ++ pNat t.id

def pRoom (r : Room) : Str :=
  pStr r.rmnbr ++ pOpt pStr r.floor ++ pStr r.bld_descrshort ++ pStr r.rmrecnbr ++
    pStr r.rmtyp_descrshort ++ pStr r.rmsubtyp_descrshort ++ pStr r.dept_descr ++
    pNat r.id ++ pStr r.typeFull ++ pList pStr r.tags ++ pStr r.mgisLink ++ pStr r.building

def pFilters (f : Filters) : Str := pStr f.building ++ pStr f.floor ++ pList pStr f.tags

def pSessionData (d : SessionData) : Str :=
  pList pRoom d.processedData ++
    pList (pPair pNat (pList pRichTag)) d.customTags ++
    pList (pPair pNat (pList pStr)) d.staffTags ++
    pList (pPair pStr pStr) d.buildingColors ++
    pFilters d.activeFilters ++ pStr d.searchQuery ++ pStr d.currentViewMode ++
    pNat d.resultsPerPage

/-- Modelled from the spec: `JSON.stringify` of the session document.  The
platform JSON codec is not part of this repository; the spec (§6, §4.6) only
requires a serialization of the listed fields that the matching parser
reverses exactly, which this self-delimiting format provides. -/
def printSessionDoc (doc : SessionDoc) : Str :=
  pStr doc.version ++ pStr doc.timestamp ++ pStr doc.type ++ pSessionData doc.data

def qLen : Str → Option (Nat × Str)
  | '1' :: rest => (qLen rest).map (fun p => (p.1 + 1, p.2))
  | ':' :: rest => some (0, rest)
  | _ => none

def qStr (s : Str) : Option (Str × Str) :=
  (qLen s).bind (fun p => if p.1 ≤ p.2.length then some (p.2.take p.1, p.2.drop p.1) else none)

def qNat (s : Str) : Option (Nat × Str) := qLen s

def qMany {α : Type} (q : Str → Option (α × Str)) : Nat → Str → Option (List α × Str)
  | 0, s => some ([], s)
  | n + 1, s => (q s).bind (fun p => (qMany q n p.2).map (fun r => (p.1 :: r.1, r.2)))

def qList {α : Type} (q : Str → Option (α × Str)) (s : Str) : Option (List α × Str) :=
  (qLen s).bind (fun p => qMany q p.1 p.2)

def qOpt {α : Type} (q : Str → Option (α × Str)) : Str → Option (Option α × Str)
  | 'n' :: rest => some (none, rest)
  | 's' :: rest => (q rest).map (fun p => (some p.1, p.2))
  | _ => none

def qPair {α β : Type} (qa : Str → Option (α × Str)) (qb : Str → Option (β × Str))
    (s : Str) : Option ((α × β) × Str) :=
  (qa s).bind (fun p => (qb p.2).map (fun r => ((p.1, r.1), r.2)))

def qRichTag (s : Str) : Option (RichTag × Str) :=
  (qStr s).bind fun a1 =>
  (qStr a1.2).bind fun a2 =>
  (qStr a2.2).bind fun a3 =>
  (qStr a3.2).bind fun a4 =>
  (qStr a4.2).bind fun a5 =>
  (qStr a5.2).bind fun a6 =>
  (qStr a6.2).bind fun a7 =>
  (qNat a7.2).bind fun a8 =>
  (qNat a8.2).map fun a9 =>
  (⟨a1.1, a2.1, a3.1, a4.1, a5.1, a6.1, a7.1, a8.1, a9.1⟩, a9.2)

def qRoom (s : Str) : Option (Room × Str) :=
  (qStr s).bind fun a1 =>
  (qOpt qStr a1.2).bind fun a2 =>
  (qStr a2.2).bind fun a3 =>
  (qStr a3.2).bind fun a4 =>
  (qStr a4.2).bind fun a5 =>
  (qStr a5.2).bind fun a6 =>
  (qStr a6.2).bind fun a7 =>
  (qNat a7.2).bind fun a8 =>
  (qStr a8.2).bind fun a9 =>
  (qList qStr a9.2).bind fun a10 =>
  (qStr a10.2).bind fun a11 =>
  (qStr a11.2).map fun a12 =>
  (⟨a1.1, a2.1, a3.1, a4.1, a5.1, a6.1, a7.1, a8.1, a9.1, a10.1, a11.1, a12.1⟩, a12.2)

def qFilters (s : Str) : Option (Filters × Str) :=
  (qStr s).bind fun a1 =>
  (qStr a1.2).bind fun a2 =>
  (qList qStr a2.2).map fun a3 =>
  (⟨a1.1, a2.1, a3.1⟩, a3.2)

def qSessionData (s : Str) : Option (SessionData × Str) :=
  (qList qRoom s).bind fun a1 =>
  (qList (qPair qNat (qList qRichTag)) a1.2).bind fun a2 =>
  (qList (qPair qNat (qList qStr)) a2.2).bind fun a3 =>
  (qList (qPair qStr qStr) a3.2).bind fun a4 =>
  (qFilters a4.2).bind fun a5 =>
  (qStr a5.2).bind fun a6 =>
  (qStr a6.2).bind fun a7 =>
  (qNat a7.2).map fun a8 =>
  (⟨a1.1, a2.1, a3.1, a4.1, a5.1, a6.1, a7.1, a8.1⟩, a8.2)

/-- Modelled from the spec: `JSON.parse` of a session document (the inverse
of `printSessionDoc`); fails on any string that is not a complete document. -/
def parseSessionDoc (s : Str) : Option SessionDoc :=
  match (qStr s).bind fun a1 =>
        (qStr a1.2).bind fun a2 =>
        (qStr a2.2).bind fun a3 =>
        (qSessionData a3.2).map fun a4 =>
        ((⟨a1.1, a2.1, a3.1, a4.1⟩ : SessionDoc), a4.2) with
  | some (doc, []) => some doc
  | _ => none

/-- `exportSession()` (src/unnamed/part_000:296-318): `none` models the
"No session data to export" error path; otherwise the encoded text blob the
user downloads.  The timestamp (`new Date().toISOString()`) is passed in. -/
def exportSession (now : Str) (st : AppState) : Option Str :=
  if st.processedData = [] ∧ st.customTags = [] then none
  else
    some (encodeText (printSessionDoc
      { version := lit ("1.1"), timestamp := now, type := lit ("um_session"),
        data :=
          { processedData := st.processedData, customTags := st.customTags,
            staffTags := st.staffTags, buildingColors := st.buildingColors,
            activeFilters := st.activeFilters, searchQuery := st.searchQuery,
            currentViewMode := st.currentViewMode, resultsPerPage := st.resultsPerPage } }))

/-- `r.building || r.bld_descrshort || 'Unknown'` per restored room
(src/unnamed/part_000:340). -/
def buildingsFacet (rooms : List Room) : List Str :=
  sortStr (dedupFirst (rooms.map (fun r =>
    if r.building ≠ [] then r.building
    else if r.bld_descrshort ≠ [] then r.bld_descrshort
    else lit ("Unknown"))))

/-- The floor-facet comparator of src/unnamed/part_000:341:
`(a, b) => (a === 'N/A') ? 1 : (b === 'N/A') ? -1 : Number(a) - Number(b)`. -/
def floorNALe (a b : Str) : Prop :=
  if a = lit ("N/A") then False
  else if b = lit ("N/A") then True
  else numVal a ≤ numVal b

instance : DecidableRel floorNALe := fun a b => by unfold floorNALe; infer_instance

/-- Floor facet recomputation on session import (src/unnamed/part_000:341). -/
def floorsFacetImported (rooms : List Room) : List Str :=
  List.insertionSort floorNALe (dedupFirst (rooms.map (fun r =>
    match r.floor with
    | some f => f
    | none => lit ("N/A"))))

/-- `[...new Set(processedData.flatMap(r => r.tags || []))].sort()`
(src/unnamed/part_000:342). -/
def tagsFacet (rooms : List Room) : List Str :=
  sortStr (dedupFirst (rooms.flatMap Room.tags))

/-- `importSession(file)` (src/unnamed/part_000:320-358) on the file's text;
`none` models the caught-error path (state untouched).  The two `|| default`
fallbacks that can differ from the stored field on falsy values
(`currentViewMode`, `resultsPerPage`) are modelled; for the remaining fields
the fallback is the identity on every decoded value. -/
def importSession (text : Str) (st : AppState) : Option AppState :=
  match (decodeText text).bind parseSessionDoc with
  | none => none
  | some doc =>
    if doc.type ≠ lit ("um_session") then none
    else some
      { st with
        processedData := doc.data.processedData,
        customTags := doc.data.customTags,
        staffTags := doc.data.staffTags,
        buildingColors := doc.data.buildingColors,
        activeFilters := doc.data.activeFilters,
        searchQuery := doc.data.searchQuery,
        currentViewMode :=
          if doc.data.currentViewMode = [] then lit ("desktop") else doc.data.currentViewMode,
        resultsPerPage := if doc.data.resultsPerPage = 0 then 10 else doc.data.resultsPerPage,
        currentPage := 1,
        availableBuildings := buildingsFacet doc.data.processedData,
        availableFloors := floorsFacetImported doc.data.processedData,
        availableTags := tagsFacet doc.data.processedData }

/-! Concrete configurations, rooms and states used by the witnesses and
counterexamples below. -/

/-- A configuration with no override/built-in abbreviation mappings, no
replacement table and no tag rules. -/
def cfg0 : Config :=
  { customAbbrev := [], abbrevMap := [], fullRepl := [], tagRules := [],
    mgisLink := fun _ => [], assignColor := fun _ _ => [] }

def emptyRoom : Room :=
  { rmnbr := [], floor := none, bld_descrshort := [], rmrecnbr := [],
    rmtyp_descrshort := [], rmsubtyp_descrshort := [], dept_descr := [],
    id := 0, typeFull := [], tags := [], mgisLink := [], building := [] }

/-- A room whose only populated raw field is the room number. -/
def rmnbrRoom (s : Str) : Room := { emptyRoom with rmnbr := s }

def alphaChars : Str := lit ("abcdefghijklmnopqrstuvwxyz")

def abc (d : Nat) : Char := alphaChars.getD (d % 26) 'a'

/-- Three-letter base-26 code of `i < 17576`; used to generate many rooms
with pairwise distinct room numbers. -/
def code3 (i : Nat) : Str := [abc (i / 676), abc (i / 26), abc i]

def floorRoomC4 : Room := { emptyRoom with floor := some (lit ("5")) }

/-- 2499 rooms with distinct lowercase room numbers (2 new suggestions each),
one room whose number is `"AAA"` (1 new suggestion: the raw room number; its
lowercased tags duplicate the `"aaa"` room's), then a floor-only room whose
first unified tag `"floor:5"` is accepted at size 4999 and brings the bare
value `"5"` in with it. -/
def ceStateC4 : AppState :=
  { initialState with
    processedData := (List.range 2499).map (fun i => rmnbrRoom (code3 i)) ++
      [rmnbrRoom (lit ("AAA")), floorRoomC4] }

def ceRoomC2 : Room := { emptyRoom with building := lit ("xbc") }

def ceStateC2 : AppState := { initialState with processedData := [ceRoomC2] }

def wRoomC2 : Room := { emptyRoom with building := lit ("xab ycd") }

def wStateC2 : AppState := { initialState with processedData := [wRoomC2] }

def roomOtherC3 : Room := { emptyRoom with building := lit ("other"), rmnbr := lit ("1") }

/-- A state whose structural building filter excludes its only room while the
active tag filters re-select it. -/
def stateC3 : AppState :=
  { initialState with
    processedData := [roomOtherC3],
    activeFilters := ⟨lit ("zz"), [], [lit ("other")]⟩ }

def wRoomC1 : Room :=
  { emptyRoom with
    rmnbr := lit ("4101"), floor := some (lit ("4")),
    dept_descr := lit ("Radiology"), building := lit ("Main") }

def wStateC1 : AppState := { initialState with processedData := [wRoomC1] }

def wRoomC6 : Room :=
  { rmnbr := lit ("4101"), floor := some (lit ("4")), bld_descrshort := lit ("Main"),
    rmrecnbr := lit ("900"), rmtyp_descrshort := lit ("OFF"), rmsubtyp_descrshort := [],
    dept_descr := lit ("Radiology"), id := 0, typeFull := lit ("Office"),
    tags := [lit ("Clinical")], mgisLink := lit ("x"), building := lit ("Main") }

def wStateC6 : AppState :=
  { initialState with
    processedData := [wRoomC6],
    customTags := [(0, [createRichTag (lit ("Lab")) (lit ("simple")) [] [] [] [] (lit ("blue"))])],
    staffTags := [(0, [lit ("Staff: Jane Doe")])],
    buildingColors := [(lit ("Main"), lit ("blue"))],
    searchQuery := lit ("q"), currentPage := 3 }

def roomC7a : Room := { emptyRoom with id := 0, rmnbr := lit ("1"), rmrecnbr := lit ("111") }

def roomC7b : Room := { emptyRoom with id := 5, rmnbr := lit ("2"), rmrecnbr := lit ("222") }

def stateC7 : AppState := { initialState with processedData := [roomC7a, roomC7b] }

def refC7 : RoomRef := { rmnbr := [], typeFull := [], rmrecnbr := lit ("222"), building := [] }

/-- A tag file keyed by room id `"0"` whose reference block's `rmrecnbr`
identifies the *other* room (id 5). -/
def docC7 : ImportDoc :=
  { customTags := [(lit ("0"), [TagEntry.plain (lit ("xx"))])],
    roomReference := [(lit ("0"), refC7)] }

def roomC8 : Room := { emptyRoom with id := 0, rmnbr := lit ("1"), rmrecnbr := lit ("9") }

/-- A state whose room 0 already carries the custom tag `"Lab"`. -/
def stateC8 : AppState :=
  { initialState with
    processedData := [roomC8],
    customTags := [(0, [createRichTag (lit ("Lab")) (lit ("simple")) [] [] [] [] (lit ("blue"))])] }

/-- Importing the tag `"lab"` — the same name as `"Lab"` up to case — onto
room 0. -/
def docC8 : ImportDoc :=
  { customTags := [(lit ("0"), [TagEntry.plain (lit ("lab"))])], roomReference := [] }

/-- A tag file whose single entry repeats the exact name `"Lab"` already on
room 0. -/
def docC8exact : ImportDoc :=
  { customTags := [(lit ("0"), [TagEntry.plain (lit ("Lab"))])], roomReference := [] }

/-- A row whose room type is the unknown abbreviation `"xyz"`. -/
def rowXyz : Row :=
  { rmnbr := lit ("1"), floor := some (lit ("1")), bld_descrshort := [], rmrecnbr := [],
    rmtyp_descrshort := lit ("xyz"), rmsubtyp_descrshort := [], dept_descr := [] }

/-!  Theorems.  -/

theorem aGet_map_keyFixed {κ ν : Type} [DecidableEq κ] (m : List (κ × ν)) (k : κ)
    (g : κ × ν → κ × ν) (hg : ∀ p, (g p).1 = p.1) :
    aGet (m.map g) k = ((m.find? (fun p => decide (p.1 = k))).map g).map (·.2) := by
  unfold aGet
  rw [List.find?_map]
  have hpred : ((fun p : κ × ν => decide (p.1 = k)) ∘ g) = (fun p : κ × ν => decide (p.1 = k)) :=
    funext fun p => by simp [Function.comp, hg p]
  rw [hpred]

theorem aGet_aSet_self {κ ν : Type} [DecidableEq κ] (m : List (κ × ν)) (k : κ) (v : ν) :
    aGet (aSet m k v) k = some v := by
  unfold aSet
  by_cases h : m.any (fun p => decide (p.1 = k))
  · rw [if_pos h]
    induction m with
    | nil => simp at h
    | cons p m ih =>
      by_cases hp : p.1 = k
      · simp [aGet, List.find?, hp]
      · have h' : m.any (fun p => decide (p.1 = k)) := by
          simp only [List.any_cons, Bool.or_eq_true, decide_eq_true_eq] at h
          rcases h with h | h
          · exact absurd h hp
          · exact h
        simpa [aGet, List.find?, hp] using ih h'
  · rw [if_neg h]
    have hnone : m.find? (fun p => decide (p.1 = k)) = none := by
      rw [List.find?_eq_none]
      intro p hp
      simp only [List.any_eq_true, decide_eq_true_eq] at h
      simp only [decide_eq_true_eq]
      exact fun hk => h ⟨p, hp, hk⟩
    simp [aGet, List.find?_append, hnone, List.find?]

theorem find?_filter_keyCond {κ ν : Type} [DecidableEq κ] (b : List (κ × ν)) (k : κ)
    (f : κ × ν → Bool) (hf : ∀ p : κ × ν, p.1 = k → f p = true) :
    (b.filter f).find? (fun p => decide (p.1 = k)) = b.find? (fun p => decide (p.1 = k)) := by
  induction b with
  | nil => rfl
  | cons p b ih =>
    by_cases hp : p.1 = k
    · rw [List.filter_cons, if_pos (hf p hp)]
      simp [List.find?, hp, ih]
    · rw [List.filter_cons]
      by_cases hfp : f p = true
      · rw [if_pos hfp]
        simp [List.find?, hp, ih]
      · rw [if_neg hfp]
        simp [List.find?, hp, ih]

theorem aGet_append {κ ν : Type} [DecidableEq κ] (x y : List (κ × ν)) (k : κ) :
    aGet (x ++ y) k = (aGet x k).or (aGet y k) := by
  unfold aGet
  rw [List.find?_append]
  cases x.find? (fun p => decide (p.1 = k)) <;> simp

theorem aGet_cons {κ ν : Type} [DecidableEq κ] (p : κ × ν) (m : List (κ × ν)) (k : κ) :
    aGet (p :: m) k = if p.1 = k then some p.2 else aGet m k := by
  by_cases hp : p.1 = k <;> simp [aGet, List.find?, hp]

theorem aGet_map_override {κ ν : Type} [DecidableEq κ] (a b : List (κ × ν)) (k : κ) :
    aGet (a.map (fun p => match aGet b p.1 with | some v => (p.1, v) | none => p)) k =
      (aGet a k).map (fun v => (aGet b k).getD v) := by
  induction a with
  | nil => rfl
  | cons p a ih =>
    rw [List.map_cons, aGet_cons, aGet_cons]
    have hgp1 : ((match aGet b p.1 with | some v => (p.1, v) | none => p) : κ × ν).1 = p.1 := by
      cases aGet b p.1 <;> rfl
    by_cases hp : p.1 = k
    · rw [if_pos (hgp1.trans hp), if_pos hp]
      subst hp
      cases hb : aGet b p.1 <;> simp [hb]
    · rw [if_neg (fun hc => hp (hgp1.symm.trans hc)), if_neg hp, ih]

theorem aGet_filter_keyCond {κ ν : Type} [DecidableEq κ] (b : List (κ × ν)) (k : κ)
    (f : κ × ν → Bool) (hf : ∀ p : κ × ν, p.1 = k → f p = true) :
    aGet (b.filter f) k = aGet b k := by
  unfold aGet
  rw [find?_filter_keyCond b k f hf]

theorem aGet_filter_keyCondFalse {κ ν : Type} [DecidableEq κ] (b : List (κ × ν)) (k : κ)
    (f : κ × ν → Bool) (hf : ∀ p : κ × ν, p.1 = k → f p = false) :
    aGet (b.filter f) k = none := by
  unfold aGet
  have : (b.filter f).find? (fun p => decide (p.1 = k)) = none := by
    rw [List.find?_eq_none]
    intro p hp
    simp only [decide_eq_true_eq]
    intro hpk
    have := (List.mem_filter.mp hp).2
    rw [hf p hpk] at this
    exact absurd this (by simp)
  rw [this]
  rfl

/-- The lookup law of the object spread `{...a, ...b}`: a key found in `b`
wins, otherwise `a`'s binding survives. -/
theorem aGet_spreadMerge {κ ν : Type} [DecidableEq κ] (a b : List (κ × ν)) (k : κ) :
    aGet (spreadMerge a b) k = (aGet b k).or (aGet a k) := by
  unfold spreadMerge
  rw [aGet_append, aGet_map_override]
  cases ha : aGet a k with
  | some va =>
    have hfilter := aGet_filter_keyCondFalse b k (fun p => (aGet a p.1).isNone)
      (fun p hp => by simp only []; rw [hp, ha]; rfl)
    cases hb : aGet b k <;> simp [hfilter]
  | none =>
    have hfilter := aGet_filter_keyCond b k (fun p => (aGet a p.1).isNone)
      (fun p hp => by simp only []; rw [hp, ha]; rfl)
    cases hb : aGet b k <;> simp [hfilter, hb]

/-- Claim C10 counterexample: on the whitespace-only input `" "` (no
override and no built-in mapping), `normalizeAbbreviation` returns the input
unchanged — a non-empty string — not the empty string the claim requires.
(The counter is indeed left unchanged.) -/
theorem normalizeAbbreviation_whitespace_not_empty :
    (normalizeAbbreviation cfg0 [' '] []).1 = [' '] ∧
    ¬ (normalizeAbbreviation cfg0 [' '] []).1 = [] ∧
    (normalizeAbbreviation cfg0 [' '] []).2 = [] := by decide

/-- Claim C10 (amended): for an input code that is empty or consists only of
whitespace (and has no override/built-in mapping), `normalizeAbbreviation`
returns the code itself — hence the empty string exactly for empty input —
and leaves the unmapped counter unchanged. -/
theorem normalizeAbbreviation_empty_or_whitespace (cfg : Config) (c : Str)
    (ctr : List (Str × Nat))
    (hcm : aGetD cfg.customAbbrev c [] = []) (hbm : aGetD cfg.abbrevMap c [] = [])
    (hw : c.all isWhite = true) :
    normalizeAbbreviation cfg c ctr = (c, ctr) ∧
    (c = [] → normalizeAbbreviation cfg c ctr = ([], ctr)) := by
  unfold normalizeAbbreviation
  by_cases hc : c = []
  · subst hc; simp
  · rw [if_neg hc, hcm, hbm]
    simp [hw]

theorem normalizeAbbreviation_empty_or_whitespace_witness :
    normalizeAbbreviation cfg0 [' '] [(lit ("a"), 1)] = ([' '], [(lit ("a"), 1)]) ∧
    ([' '] = ([] : Str) →
      normalizeAbbreviation cfg0 [' '] [(lit ("a"), 1)] = ([], [(lit ("a"), 1)])) :=
  normalizeAbbreviation_empty_or_whitespace cfg0 [' '] [(lit ("a"), 1)]
    (by decide) (by decide) (by decide)

/-- Claim C9 counterexample: the unknown code `"xyz"` occurs once in each of
two successive merge batches; after the first merge its recorded count is 1,
and after the second merge it is still 1 — not the 2 the claim requires —
because `processRoomData` merges the per-batch counter into the stored one
with an object spread that overwrites counts instead of adding them. -/
theorem unmapped_counter_cross_batch_overwrite :
    aGetD (applyMerges cfg0 [[rowXyz]]).unmappedAbbreviations (lit ("xyz")) 0 = 1 ∧
    aGetD (applyMerges cfg0 [[rowXyz], [rowXyz]]).unmappedAbbreviations (lit ("xyz")) 0 = 1 ∧
    ¬ aGetD (applyMerges cfg0 [[rowXyz], [rowXyz]]).unmappedAbbreviations (lit ("xyz")) 0 = 2 := by
  decide

/-- Claim C9 (amended): for an unknown non-empty, non-whitespace code the
counter passed through `normalizeAbbreviation` goes from 0 to 1 and from 1
to 2 on two occurrences *within one merge batch*; at the end of a batch,
`processRoomData` combines the stored counter with the batch counter by
object spread, so a code seen in the batch takes exactly its batch count
(overwriting any earlier count) and codes not in the batch keep their old
counts. -/
theorem unmapped_counter_accumulation (cfg : Config) (c : Str) (ctr : List (Str × Nat))
    (hcm : aGetD cfg.customAbbrev c [] = []) (hbm : aGetD cfg.abbrevMap c [] = [])
    (hne : ¬ c = []) (hw : c.all isWhite = false) :
    ((normalizeAbbreviation cfg c ctr).1 = c ∧
     aGetD (normalizeAbbreviation cfg c ctr).2 c 0 = aGetD ctr c 0 + 1 ∧
     aGetD (normalizeAbbreviation cfg c (normalizeAbbreviation cfg c ctr).2).2 c 0 =
       aGetD ctr c 0 + 2) ∧
    (∀ (st : AppState) (rows : List Row),
        (processRoomData cfg st rows).unmappedAbbreviations =
          spreadMerge st.unmappedAbbreviations (batchAcc cfg st rows).unmapped) ∧
    (∀ (old batch : List (Str × Nat)) (k : Str),
        aGet (spreadMerge old batch) k = (aGet batch k).or (aGet old k)) := by
  have hstep : ∀ m : List (Str × Nat),
      normalizeAbbreviation cfg c m = (c, aSet m c (aGetD m c 0 + 1)) := by
    intro m
    unfold normalizeAbbreviation
    rw [if_neg hne, hcm, hbm]
    simp [hw]
  refine ⟨?_, fun st rows => rfl, fun old batch k => aGet_spreadMerge old batch k⟩
  rw [hstep ctr]
  have h1 : aGetD (aSet ctr c (aGetD ctr c 0 + 1)) c 0 = aGetD ctr c 0 + 1 := by
    unfold aGetD
    rw [aGet_aSet_self]
    rfl
  refine ⟨rfl, h1, ?_⟩
  rw [hstep (aSet ctr c (aGetD ctr c 0 + 1))]
  simp only [aGetD, aGet_aSet_self, Option.getD_some]

theorem unmapped_counter_accumulation_witness :
    ((normalizeAbbreviation cfg0 (lit ("xyz")) []).1 = lit ("xyz") ∧
     aGetD (normalizeAbbreviation cfg0 (lit ("xyz")) []).2 (lit ("xyz")) 0 =
       aGetD ([] : List (Str × Nat)) (lit ("xyz")) 0 + 1 ∧
     aGetD (normalizeAbbreviation cfg0 (lit ("xyz"))
         (normalizeAbbreviation cfg0 (lit ("xyz")) []).2).2 (lit ("xyz")) 0 =
       aGetD ([] : List (Str × Nat)) (lit ("xyz")) 0 + 2) ∧
    (∀ (st : AppState) (rows : List Row),
        (processRoomData cfg0 st rows).unmappedAbbreviations =
          spreadMerge st.unmappedAbbreviations (batchAcc cfg0 st rows).unmapped) ∧
    (∀ (old batch : List (Str × Nat)) (k : Str),
        aGet (spreadMerge old batch) k = (aGet batch k).or (aGet old k)) :=
  unmapped_counter_accumulation cfg0 (lit ("xyz")) []
    (by decide) (by decide) (by decide) (by decide)

/-- Claim C3: whenever the active tag-filter list is non-empty,
`data_getFilteredData` returns exactly `searchRoomsByTags` applied to the
free-text query joined with all active tag filters; the building/floor
narrowing computed earlier in the call is discarded, so (second and third
conjuncts, at a concrete state) a room failing the building equality filter
can still appear in the result. -/
theorem data_getFilteredData_tagFold :
    (∀ st : AppState, st.activeFilters.tags ≠ [] →
        data_getFilteredData st = searchRoomsByTags st (combinedTagQuery st)) ∧
    stateC3.activeFilters.building ≠ [] ∧
    ∃ r ∈ data_getFilteredData stateC3, r.building ≠ stateC3.activeFilters.building := by
  have hres : data_getFilteredData stateC3 = [roomOtherC3] := by decide
  refine ⟨fun st h => ?_, by decide,
    ⟨roomOtherC3, by rw [hres]; exact List.mem_singleton.mpr rfl, by decide⟩⟩
  simp only [data_getFilteredData, if_pos h]

theorem data_getFilteredData_tagFold_witness :
    data_getFilteredData stateC3 = searchRoomsByTags stateC3 (combinedTagQuery stateC3) :=
  data_getFilteredData_tagFold.1 stateC3 (by decide)

/-- Claim C8 counterexample: room 0 of `stateC8` already carries the custom
tag `"Lab"`; importing the tag `"lab"` — whose name matches `"Lab"`
case-insensitively — re-adds it (the room's tag list grows to 2) and
increments the imported counter to 1, because the duplicate check compares
names with the strict `===`, not case-insensitively. -/
theorem importCustomTags_caseSensitive_dup :
    lowerStr (lit ("lab")) = lowerStr (lit ("Lab")) ∧
    (customTagsOf (importCustomTags docC8 stateC8).1 0).length = 2 ∧
    (importCustomTags docC8 stateC8).2.1 = 1 := by decide

theorem aGet_singleton {κ ν : Type} [DecidableEq κ] (k : κ) (v : ν) :
    aGet [(k, v)] k = some v := by
  rw [aGet_cons, if_pos rfl]

/-- Claim C8 (amended): during `importCustomTags`, a tag entry whose
normalised name *exactly* equals the name of an existing tag of the resolved
room (strict `===` comparison) is not re-added and does not increment the
imported counter. -/
theorem importCustomTags_exact_dup (st : AppState) (key : Str) (e : TagEntry)
    (rl : List (Str × RoomRef)) (r : Room)
    (hres : resolveTargetRoom st.processedData (aGet rl key) key = some r)
    (hdup : (customTagsOf st r.id).any
      (fun ex => decide (ex.name = (normalizeTagEntry e).name)) = true) :
    customTagsOf (importCustomTags ⟨[(key, [e])], rl⟩ st).1 r.id = customTagsOf st r.id ∧
    (importCustomTags ⟨[(key, [e])], rl⟩ st).2.1 = 0 := by
  have hstep : importCustomTags ⟨[(key, [e])], rl⟩ st =
      ({ st with customTags := aSet st.customTags r.id (customTagsOf st r.id) }, 0, 0) := by
    unfold importCustomTags
    simp only [List.foldl]
    unfold importTagsEntry
    simp only [hres]
    unfold importTagsForRoom
    simp only [List.foldl, hdup, if_true]
    simp
  rw [hstep]
  constructor
  · show aGetD (aSet st.customTags r.id (customTagsOf st r.id)) r.id [] = _
    unfold aGetD
    rw [aGet_aSet_self]
    rfl
  · rfl

theorem importCustomTags_exact_dup_witness :
    customTagsOf (importCustomTags ⟨[(lit ("0"), [TagEntry.plain (lit ("Lab"))])], []⟩ stateC8).1
        roomC8.id = customTagsOf stateC8 roomC8.id ∧
    (importCustomTags ⟨[(lit ("0"), [TagEntry.plain (lit ("Lab"))])], []⟩ stateC8).2.1 = 0 :=
  importCustomTags_exact_dup stateC8 (lit ("0")) (TagEntry.plain (lit ("Lab"))) [] roomC8
    (by decide) (by decide)

/-- Claim C7: `importCustomTags` resolves the target room by trying, in
order: room-record-number from the reference block, raw id, room-number plus
building, room-number only — first hit wins (first four conjuncts).  In
particular (last conjunct): when the reference block carries a `rmrecnbr`
matching a room stored under a different id than the file's roomId key, that
room still receives the imported tag and the imported counter counts it. -/
theorem importCustomTags_resolution (rooms : List Room) (ref : RoomRef) (key : Str) :
    (∀ r, ref.rmrecnbr ≠ [] → findByRmrecnbr rooms ref.rmrecnbr = some r →
        resolveTargetRoom rooms (some ref) key = some r) ∧
    ((ref.rmrecnbr = [] ∨ findByRmrecnbr rooms ref.rmrecnbr = none) →
      ∀ r, findById rooms key = some r → resolveTargetRoom rooms (some ref) key = some r) ∧
    ((ref.rmrecnbr = [] ∨ findByRmrecnbr rooms ref.rmrecnbr = none) →
      findById rooms key = none →
      ref.rmnbr ≠ [] → ref.building ≠ [] →
      ∀ r, findByRmnbrBuilding rooms ref.rmnbr ref.building = some r →
        resolveTargetRoom rooms (some ref) key = some r) ∧
    ((ref.rmrecnbr = [] ∨ findByRmrecnbr rooms ref.rmrecnbr = none) →
      findById rooms key = none →
      (ref.rmnbr = [] ∨ ref.building = [] ∨
        findByRmnbrBuilding rooms ref.rmnbr ref.building = none) →
      ref.rmnbr ≠ [] →
      resolveTargetRoom rooms (some ref) key = findByRmnbr rooms ref.rmnbr) ∧
    (∀ (st : AppState) (s : Str) (r : Room),
      st.processedData = rooms →
      ref.rmrecnbr ≠ [] → findByRmrecnbr rooms ref.rmrecnbr = some r →
      ¬ natToStr r.id = key →
      (customTagsOf st r.id).any
        (fun ex => decide (ex.name = (normalizeTagEntry (TagEntry.plain s)).name)) = false →
      customTagsOf (importCustomTags ⟨[(key, [TagEntry.plain s])], [(key, ref)]⟩ st).1 r.id =
        customTagsOf st r.id ++ [normalizeTagEntry (TagEntry.plain s)] ∧
      (importCustomTags ⟨[(key, [TagEntry.plain s])], [(key, ref)]⟩ st).2.1 = 1) := by
  have hfirst : ∀ r, ref.rmrecnbr ≠ [] → findByRmrecnbr rooms ref.rmrecnbr = some r →
      resolveTargetRoom rooms (some ref) key = some r := by
    intro r h1 h2
    unfold resolveTargetRoom
    dsimp only
    rw [if_pos h1, h2]
  have hstage1 : (ref.rmrecnbr = [] ∨ findByRmrecnbr rooms ref.rmrecnbr = none) →
      (if ref.rmrecnbr ≠ [] then findByRmrecnbr rooms ref.rmrecnbr else none) = none := by
    intro h1
    rcases h1 with h1 | h1
    · rw [if_neg (by simp [h1])]
    · by_cases hrm : ref.rmrecnbr = []
      · rw [if_neg (by simp [hrm])]
      · rw [if_pos hrm, h1]
  refine ⟨hfirst, ?_, ?_, ?_, ?_⟩
  · intro h1 r h2
    unfold resolveTargetRoom
    dsimp only
    rw [hstage1 h1, h2]
  · intro h1 h2 h3 h4 r h5
    unfold resolveTargetRoom
    dsimp only
    rw [hstage1 h1, h2, if_pos ⟨h3, h4⟩, h5]
  · intro h1 h2 h3 h4
    unfold resolveTargetRoom
    dsimp only
    rw [hstage1 h1, h2]
    have hstage3 : (if ref.rmnbr ≠ [] ∧ ref.building ≠ [] then
        findByRmnbrBuilding rooms ref.rmnbr ref.building else none) = none := by
      rcases h3 with h3 | h3 | h3
      · exact absurd h3 h4
      · rw [if_neg (by simp [h3])]
      · by_cases hb : ref.building = []
        · rw [if_neg (by simp [hb])]
        · rw [if_pos ⟨h4, hb⟩, h3]
    rw [hstage3, if_pos h4]
  · intro st s r hst h1 h2 h3 h4
    have hres : resolveTargetRoom st.processedData (aGet [(key, ref)] key) key = some r := by
      rw [aGet_singleton, hst]
      exact hfirst r h1 h2
    have hstep : importCustomTags ⟨[(key, [TagEntry.plain s])], [(key, ref)]⟩ st =
        ({ st with customTags := aSet st.customTags r.id (customTagsOf st r.id ++ [normalizeTagEntry (TagEntry.plain s)]) }, 1, 0) := by
      unfold importCustomTags
      simp only [List.foldl]
      unfold importTagsEntry
      simp only [hres]
      unfold importTagsForRoom
      simp only [List.foldl, h4]
      simp
    rw [hstep]
    constructor
    · show aGetD (aSet st.customTags r.id _) r.id [] = _
      unfold aGetD
      rw [aGet_aSet_self]
      rfl
    · rfl

theorem importCustomTags_resolution_witness :
    resolveTargetRoom stateC7.processedData (some refC7) (lit ("0")) = some roomC7b ∧
    customTagsOf (importCustomTags docC7 stateC7).1 roomC7b.id =
      customTagsOf stateC7 roomC7b.id ++ [normalizeTagEntry (TagEntry.plain (lit ("xx")))] ∧
    (importCustomTags docC7 stateC7).2.1 = 1 := by
  have h := importCustomTags_resolution stateC7.processedData refC7 (lit ("0"))
  have h5 := h.2.2.2.2 stateC7 (lit ("xx")) roomC7b rfl (by decide) (by decide)
    (by decide) (by decide)
  exact ⟨h.1 roomC7b (by decide) (by decide), h5.1, h5.2⟩

theorem jsSplitAux_ne_nil (sep : Char → Bool) (acc : Option Str) (s : Str) :
    jsSplitAux sep acc s ≠ [] := by
  induction s generalizing acc with
  | nil => simp [jsSplitAux]
  | cons c cs ih =>
    unfold jsSplitAux
    cases hsep : sep c
    · simpa [hsep] using ih (some (c :: acc.getD []))
    · cases acc
      · simpa [hsep] using ih none
      · simp [hsep]

/-- Claim C2 counterexample: for the term `"a-bc"` (which contains a hyphen)
and the room of `ceStateC2` (synthesized tags `"xbc"` and `"building:xbc"`),
every sub-word of length > 1 — namely `"bc"` — is contained in a tag, yet the
term does not match: the code requires *every* sub-word (including the
length-1 `"a"`) to have length > 1, rather than ignoring the short ones. -/
theorem compound_short_subword_fails :
    (lit ("a-bc")).contains '-' = true ∧
    (∀ w ∈ jsSplit isWordSep (lit ("a-bc")), 1 < w.length →
        ∃ t ∈ createUnifiedTags ceStateC2 ceRoomC2, w <:+: t) ∧
    termMatchesRoom (createUnifiedTags ceStateC2 ceRoomC2) (lit ("a-bc")) = false := by
  decide

/-- Claim C2 (amended): a term containing a hyphen or a space matches a
room's synthesized tag set whenever *every* sub-word produced by splitting
the term on `/[\s\-]+/` (including empty edge pieces) has length > 1 and is
contained as a substring in some tag of the set; a sub-word of length ≤ 1 is
not ignored but makes the compound rule fail. -/
theorem compound_term_match (st : AppState) (room : Room) (term : Str)
    (hc : term.contains '-' = true ∨ term.contains ' ' = true)
    (hw : ∀ w ∈ jsSplit isWordSep term, 1 < w.length ∧
        ∃ t ∈ createUnifiedTags st room, w <:+: t) :
    termMatchesRoom (createUnifiedTags st room) term = true := by
  have hcomp : compoundMatch (createUnifiedTags st room) term = true := by
    unfold compoundMatch
    rw [List.all_eq_true]
    intro w hwmem
    obtain ⟨hlen, t, htmem, hinf⟩ := hw w hwmem
    rw [Bool.and_eq_true]
    refine ⟨by simpa using hlen, ?_⟩
    rw [List.any_eq_true]
    exact ⟨t, htmem, by simpa [strIncludes] using hinf⟩
  have hcond : (term.contains '-' || term.contains ' ') = true := by
    rw [Bool.or_eq_true]
    exact hc
  have hne : jsSplit isWordSep term ≠ [] := jsSplitAux_ne_nil isWordSep (some []) term
  obtain ⟨w0, hw0⟩ := List.exists_mem_of_ne_nil _ hne
  obtain ⟨_, t0, ht0mem, _⟩ := hw w0 hw0
  unfold termMatchesRoom
  rw [List.any_eq_true]
  refine ⟨t0, ht0mem, ?_⟩
  unfold tagMatchesTerm
  split_ifs <;> first | rfl | exact hcomp

theorem compound_term_match_witness :
    termMatchesRoom (createUnifiedTags wStateC2 wRoomC2) (lit ("ab-cd")) = true :=
  compound_term_match wStateC2 wRoomC2 (lit ("ab-cd")) (Or.inl (by decide)) (by decide)

theorem toNat_ofNat_valid (n : Nat) (h : n < 0xd800) : (Char.ofNat n).toNat = n := by
  have hv : Nat.isValidChar n := Or.inl h
  simp [Char.ofNat, Char.ofNatAux, Char.toNat, hv, UInt32.toNat, UInt32.ofNat',
    BitVec.toNat_ofNatLt]

theorem isQuerySep_toLower (c : Char) (h : isQuerySep c = false) :
    isQuerySep c.toLower = false := by
  unfold Char.toLower
  by_cases hc : c.toNat ≥ 65 ∧ c.toNat ≤ 90
  · rw [if_pos hc]
    have h32 : (Char.ofNat (c.toNat + 32)).toNat = c.toNat + 32 :=
      toNat_ofNat_valid _ (by omega)
    unfold isQuerySep isWhite
    simp only [h32, Bool.or_eq_false_iff, decide_eq_false_iff_not]
    omega
  · rw [if_neg hc]
    exact h

theorem lowerStr_sepFree (t : Str) (h : ∀ c ∈ t, isQuerySep c = false) :
    ∀ c ∈ lowerStr t, isQuerySep c = false := by
  intro c hc
  rw [lowerStr, List.mem_map] at hc
  obtain ⟨a, ha, rfl⟩ := hc
  exact isQuerySep_toLower a (h a ha)

theorem jsSplitAux_nil (sep : Char → Bool) (acc : Option Str) :
    jsSplitAux sep acc [] = [(acc.getD []).reverse] := rfl

theorem jsSplitAux_cons (sep : Char → Bool) (acc : Option Str) (c : Char) (cs : Str) :
    jsSplitAux sep acc (c :: cs) =
      if sep c then
        match acc with
        | some a => a.reverse :: jsSplitAux sep none cs
        | none => jsSplitAux sep none cs
      else jsSplitAux sep (some (c :: acc.getD [])) cs := rfl

theorem jsSplitAux_sepFree (sep : Char → Bool) (s : Str) (hf : ∀ c ∈ s, sep c = false) :
    ∀ acc : Str, jsSplitAux sep (some acc) s = [acc.reverse ++ s] := by
  induction s with
  | nil => intro acc; simp [jsSplitAux_nil]
  | cons c cs ih =>
    intro acc
    have hc : sep c = false := hf c (List.mem_cons_self c cs)
    rw [jsSplitAux_cons, hc]
    simp only [Bool.false_eq_true, if_false, Option.getD_some]
    rw [ih (fun x hx => hf x (List.mem_cons_of_mem c hx)) (c :: acc)]
    simp

theorem jsSplitAux_break (sep : Char → Bool) (c0 : Char) (hc0 : sep c0 = true)
    (s1 s2 : Str) (hf1 : ∀ c ∈ s1, sep c = false) :
    ∀ acc : Str, jsSplitAux sep (some acc) (s1 ++ c0 :: s2) =
      (acc.reverse ++ s1) :: jsSplitAux sep none s2 := by
  induction s1 with
  | nil =>
    intro acc
    rw [List.nil_append, jsSplitAux_cons, hc0]
    simp only [if_true, List.append_nil]
  | cons c s1' ih =>
    intro acc
    have hc : sep c = false := hf1 c (List.mem_cons_self c s1')
    rw [List.cons_append, jsSplitAux_cons, hc]
    simp only [Bool.false_eq_true, if_false, Option.getD_some]
    rw [ih (fun x hx => hf1 x (List.mem_cons_of_mem c hx)) (c :: acc)]
    simp only [List.reverse_cons, List.append_assoc, List.singleton_append]

theorem jsSplitAux_none_sepFree (sep : Char → Bool) (s : Str) (hne : s ≠ [])
    (hf : ∀ c ∈ s, sep c = false) : jsSplitAux sep none s = [s] := by
  cases s with
  | nil => exact absurd rfl hne
  | cons c cs =>
    have hc : sep c = false := hf c (List.mem_cons_self c cs)
    rw [jsSplitAux_cons, hc]
    simp only [Bool.false_eq_true, if_false, Option.getD_none]
    rw [jsSplitAux_sepFree sep cs (fun x hx => hf x (List.mem_cons_of_mem c hx)) [c]]
    simp

theorem searchTerms_single (t : Str) (hne : t ≠ []) (hf : ∀ c ∈ t, isQuerySep c = false) :
    searchTerms t = [lowerStr t] := by
  unfold searchTerms jsSplit
  rw [jsSplitAux_sepFree isQuerySep (lowerStr t) (lowerStr_sepFree t hf) []]
  have hlen : 0 < (lowerStr t).length := by
    cases t with
    | nil => exact absurd rfl hne
    | cons c cs => simp [lowerStr]
  simp [hlen]

theorem searchTerms_pair (t1 t2 : Str) (h1 : t1 ≠ []) (h2 : t2 ≠ [])
    (hs1 : ∀ c ∈ t1, isQuerySep c = false) (hs2 : ∀ c ∈ t2, isQuerySep c = false) :
    searchTerms (t1 ++ ' ' :: t2) = [lowerStr t1, lowerStr t2] := by
  unfold searchTerms jsSplit
  have hlow : lowerStr (t1 ++ ' ' :: t2) = lowerStr t1 ++ ' ' :: lowerStr t2 := by
    unfold lowerStr
    have hsp : Char.toLower ' ' = ' ' := by decide
    rw [List.map_append, List.map_cons, hsp]
  rw [hlow]
  rw [jsSplitAux_break isQuerySep ' ' (by decide) (lowerStr t1) (lowerStr t2)
    (lowerStr_sepFree t1 hs1) []]
  rw [jsSplitAux_none_sepFree isQuerySep (lowerStr t2)
    (by cases t2 with | nil => exact absurd rfl h2 | cons c cs => simp [lowerStr])
    (lowerStr_sepFree t2 hs2)]
  have hlen1 : 0 < (lowerStr t1).length := by
    cases t1 with
    | nil => exact absurd rfl h1
    | cons c cs => simp [lowerStr]
  have hlen2 : 0 < (lowerStr t2).length := by
    cases t2 with
    | nil => exact absurd rfl h2
    | cons c cs => simp [lowerStr]
  simp [hlen1, hlen2]

/-- Claim C1: for non-empty terms `t1`, `t2` free of query separators
(whitespace/comma), the rooms returned by `searchRoomsByTags` for the query
`"t1 t2"` are exactly those returned for both `t1` and `t2` separately
(AND/intersection semantics, same membership); and the empty query returns
the full dataset unchanged. -/
theorem searchRoomsByTags_intersection (st : AppState) (t1 t2 : Str)
    (h1 : t1 ≠ []) (h2 : t2 ≠ [])
    (hs1 : ∀ c ∈ t1, isQuerySep c = false) (hs2 : ∀ c ∈ t2, isQuerySep c = false) :
    (∀ r : Room, r ∈ searchRoomsByTags st (t1 ++ ' ' :: t2) ↔
        r ∈ searchRoomsByTags st t1 ∧ r ∈ searchRoomsByTags st t2) ∧
    searchRoomsByTags st [] = st.processedData := by
  constructor
  · intro r
    by_cases hdata : st.processedData = []
    · simp [searchRoomsByTags, hdata]
    · have hq12 : ¬ (t1 ++ ' ' :: t2 = [] ∨ st.processedData = []) := by
        simp [hdata]
      have hq1 : ¬ (t1 = [] ∨ st.processedData = []) := by simp [h1, hdata]
      have hq2 : ¬ (t2 = [] ∨ st.processedData = []) := by simp [h2, hdata]
      unfold searchRoomsByTags
      rw [if_neg hq12, if_neg hq1, if_neg hq2]
      rw [searchTerms_pair t1 t2 h1 h2 hs1 hs2, searchTerms_single t1 h1 hs1,
        searchTerms_single t2 h2 hs2]
      rw [if_neg (by simp), if_neg (by simp), if_neg (by simp)]
      simp only [List.mem_filter, List.all_cons, List.all_nil, Bool.and_true,
        Bool.and_eq_true]
      tauto
  · simp [searchRoomsByTags]

theorem searchRoomsByTags_intersection_witness :
    (wRoomC1 ∈ searchRoomsByTags wStateC1 (lit ("4") ++ ' ' :: lit ("radiology")) ↔
      wRoomC1 ∈ searchRoomsByTags wStateC1 (lit ("4")) ∧
      wRoomC1 ∈ searchRoomsByTags wStateC1 (lit ("radiology"))) ∧
    searchRoomsByTags wStateC1 [] = wStateC1.processedData :=
  ⟨(searchRoomsByTags_intersection wStateC1 (lit ("4")) (lit ("radiology"))
      (by decide) (by decide) (by decide) (by decide)).1 wRoomC1,
   (searchRoomsByTags_intersection wStateC1 (lit ("4")) (lit ("radiology"))
      (by decide) (by decide) (by decide) (by decide)).2⟩

/-- The row-loop invariant of `processRoomData`: the batch ids are a
contiguous range continuing the id counter. -/
theorem processRow_fold_ids (cfg : Config) (rows : List Row) :
    ∀ (acc : BatchAcc) (n0 : Nat),
      acc.processed.map Room.id = List.range' n0 acc.processed.length →
      acc.counter = n0 + acc.processed.length →
      (rows.foldl (processRow cfg) acc).processed.map Room.id =
        List.range' n0 (rows.foldl (processRow cfg) acc).processed.length ∧
      (rows.foldl (processRow cfg) acc).counter =
        n0 + (rows.foldl (processRow cfg) acc).processed.length := by
  induction rows with
  | nil => intro acc n0 hmap hctr; exact ⟨hmap, hctr⟩
  | cons row rows ih =>
    intro acc n0 hmap hctr
    rw [List.foldl_cons]
    by_cases hskip : row.rmnbr = [] ∨ row.floor = none
    · have : processRow cfg acc row = acc := by
        unfold processRow
        rw [if_pos hskip]
      rw [this]
      exact ih acc n0 hmap hctr
    · apply ih
      · show (processRow cfg acc row).processed.map Room.id = _
        unfold processRow
        rw [if_neg hskip]
        simp only [List.map_append, List.length_append, List.map_cons, List.map_nil,
          List.length_cons, List.length_nil]
        rw [hmap, hctr]
        rw [show acc.processed.length + (0 + 1) = acc.processed.length + 1 by omega]
        rw [List.range'_concat]
        simp
      · unfold processRow
        rw [if_neg hskip]
        simp only [List.length_append, List.length_cons, List.length_nil]
        omega

/-- The dataset invariant: after any sequence of merge batches the room ids
are exactly `0, 1, …, length-1` in order. -/
theorem applyMerges_ids (cfg : Config) (batches : List (List Row)) :
    (applyMerges cfg batches).processedData.map Room.id =
      List.range (applyMerges cfg batches).processedData.length := by
  induction batches using List.reverseRecOn with
  | nil => rfl
  | append_singleton batches b ih =>
    have happ : applyMerges cfg (batches ++ [b]) =
        processRoomData cfg (applyMerges cfg batches) b := by
      unfold applyMerges
      rw [List.foldl_append]
      rfl
    rw [happ]
    set st := applyMerges cfg batches with hst
    have hpd : (processRoomData cfg st b).processedData =
        st.processedData ++ (batchAcc cfg st b).processed := rfl
    have hinv := processRow_fold_ids cfg b
      { processed := [], unmapped := [], buildings := [], floors := [], batchTags := [],
        counter := st.processedData.length }
      st.processedData.length (by simp) (by simp)
    rw [hpd, List.map_append, List.length_append, ih]
    have hinv1 : (batchAcc cfg st b).processed.map Room.id =
        List.range' st.processedData.length (batchAcc cfg st b).processed.length := hinv.1
    rw [hinv1, List.range_add, List.range'_eq_map_range]

/-- Claim C5: starting from the empty dataset, after any sequence of merge
batches the room ids are pairwise distinct, and one further merge batch
appends rooms whose ids are strictly larger than every id already present
(so re-merging the same source rows always assigns fresh ids). -/
theorem merge_ids_unique_monotonic (cfg : Config) (batches : List (List Row)) (b : List Row) :
    ((applyMerges cfg batches).processedData.map Room.id).Nodup ∧
    ((applyMerges cfg (batches ++ [b])).processedData.map Room.id).Nodup ∧
    ∃ added, (applyMerges cfg (batches ++ [b])).processedData =
        (applyMerges cfg batches).processedData ++ added ∧
      ∀ rn ∈ added, ∀ ro ∈ (applyMerges cfg batches).processedData, ro.id < rn.id := by
  have hnodup : ∀ bs : List (List Row),
      ((applyMerges cfg bs).processedData.map Room.id).Nodup := by
    intro bs
    rw [applyMerges_ids]
    exact List.nodup_range _
  refine ⟨hnodup batches, hnodup (batches ++ [b]), ?_⟩
  have happ : applyMerges cfg (batches ++ [b]) =
      processRoomData cfg (applyMerges cfg batches) b := by
    unfold applyMerges
    rw [List.foldl_append]
    rfl
  set st := applyMerges cfg batches with hst
  refine ⟨(batchAcc cfg st b).processed, by rw [happ]; rfl, ?_⟩
  intro rn hrn ro hro
  have hinv := processRow_fold_ids cfg b
    { processed := [], unmapped := [], buildings := [], floors := [], batchTags := [],
      counter := st.processedData.length }
    st.processedData.length (by simp) (by simp)
  have hinv1 : (batchAcc cfg st b).processed.map Room.id =
      List.range' st.processedData.length (batchAcc cfg st b).processed.length := hinv.1
  have hrnid : rn.id ∈ List.range' st.processedData.length
      (batchAcc cfg st b).processed.length := by
    rw [← hinv1]
    exact List.mem_map_of_mem Room.id hrn
  have hroid : ro.id ∈ List.range st.processedData.length := by
    rw [← applyMerges_ids]
    exact List.mem_map_of_mem Room.id hro
  rw [List.mem_range'] at hrnid
  rw [List.mem_range] at hroid
  obtain ⟨i, _, hrneq⟩ := hrnid
  omega

theorem char_toNat_lt (c : Char) : c.toNat < 0x110000 := by
  rcases c.valid with h | ⟨_, h⟩
  · have h2 : c.val.toNat < (0xd800 : UInt32).toNat := h
    simp only [Char.toNat]
    omega
  · have h2 : c.val.toNat < (0x110000 : UInt32).toNat := h
    simp only [Char.toNat]
    omega

theorem b64Idx_b64Chr : ∀ n < 64, b64Idx (b64Chr n) = some n := by decide

theorem b64Chr_ne_pad : ∀ n < 64, ¬ b64Chr n = '=' := by decide

theorem b64Dec_b64Enc : ∀ bs : List Nat, (∀ b ∈ bs, b < 256) → b64Dec (b64Enc bs) = some bs
  | [], _ => rfl
  | [b0], h => by
    have hb0 : b0 < 256 := h b0 (by simp)
    have h0 : b64Idx (b64Chr (b0 / 4)) = some (b0 / 4) := b64Idx_b64Chr _ (by omega)
    have h1 : b64Idx (b64Chr (b0 % 4 * 16)) = some (b0 % 4 * 16) := b64Idx_b64Chr _ (by omega)
    simp only [b64Enc, b64Dec, h0, h1]
    rw [if_pos (by simp)]
    have : b0 / 4 * 4 + b0 % 4 * 16 / 16 = b0 := by omega
    rw [this]
  | [b0, b1], h => by
    have hb0 : b0 < 256 := h b0 (by simp)
    have hb1 : b1 < 256 := h b1 (by simp)
    have h0 : b64Idx (b64Chr (b0 / 4)) = some (b0 / 4) := b64Idx_b64Chr _ (by omega)
    have h1 : b64Idx (b64Chr (b0 % 4 * 16 + b1 / 16)) = some (b0 % 4 * 16 + b1 / 16) :=
      b64Idx_b64Chr _ (by omega)
    have h2 : b64Idx (b64Chr (b1 % 16 * 4)) = some (b1 % 16 * 4) := b64Idx_b64Chr _ (by omega)
    have hne : ¬ b64Chr (b1 % 16 * 4) = '=' := b64Chr_ne_pad _ (by omega)
    simp only [b64Enc, b64Dec, h0, h1, h2]
    rw [if_neg (by simp [hne]), if_pos (by simp)]
    have e1 : b0 / 4 * 4 + (b0 % 4 * 16 + b1 / 16) / 16 = b0 := by omega
    have e2 : (b0 % 4 * 16 + b1 / 16) % 16 * 16 + b1 % 16 * 4 / 4 = b1 := by omega
    rw [e1, e2]
  | b0 :: b1 :: b2 :: rest, h => by
    have hb0 : b0 < 256 := h b0 (by simp)
    have hb1 : b1 < 256 := h b1 (by simp)
    have hb2 : b2 < 256 := h b2 (by simp)
    have h0 : b64Idx (b64Chr (b0 / 4)) = some (b0 / 4) := b64Idx_b64Chr _ (by omega)
    have h1 : b64Idx (b64Chr (b0 % 4 * 16 + b1 / 16)) = some (b0 % 4 * 16 + b1 / 16) :=
      b64Idx_b64Chr _ (by omega)
    have h2 : b64Idx (b64Chr (b1 % 16 * 4 + b2 / 64)) = some (b1 % 16 * 4 + b2 / 64) :=
      b64Idx_b64Chr _ (by omega)
    have h3 : b64Idx (b64Chr (b2 % 64)) = some (b2 % 64) := b64Idx_b64Chr _ (by omega)
    have hne2 : ¬ b64Chr (b1 % 16 * 4 + b2 / 64) = '=' := b64Chr_ne_pad _ (by omega)
    have hne3 : ¬ b64Chr (b2 % 64) = '=' := b64Chr_ne_pad _ (by omega)
    have hrec := b64Dec_b64Enc rest (fun b hb => h b (by simp [hb]))
    simp only [b64Enc, b64Dec, h0, h1, h2, h3]
    rw [if_neg (by simp [hne2]), if_neg (by simp [hne3]), hrec]
    have e1 : b0 / 4 * 4 + (b0 % 4 * 16 + b1 / 16) / 16 = b0 := by omega
    have e2 : (b0 % 4 * 16 + b1 / 16) % 16 * 16 + (b1 % 16 * 4 + b2 / 64) / 4 = b1 := by omega
    have e3 : (b1 % 16 * 4 + b2 / 64) % 4 * 64 + b2 % 64 = b2 := by omega
    simp only [Option.map_some, e1, e2, e3]
    rfl

theorem utf8EncChar_lt (c : Char) : ∀ b ∈ utf8EncChar c, b < 256 := by
  have hv := char_toNat_lt c
  intro b hb
  unfold utf8EncChar at hb
  dsimp only at hb
  split_ifs at hb with h1 h2 h3
  · rcases List.mem_singleton.mp hb with rfl
    omega
  · rcases List.mem_cons.mp hb with rfl | hb
    · omega
    · rcases List.mem_singleton.mp hb with rfl
      omega
  · rcases List.mem_cons.mp hb with rfl | hb
    · omega
    · rcases List.mem_cons.mp hb with rfl | hb
      · omega
      · rcases List.mem_singleton.mp hb with rfl
        omega
  · rcases List.mem_cons.mp hb with rfl | hb
    · omega
    · rcases List.mem_cons.mp hb with rfl | hb
      · omega
      · rcases List.mem_cons.mp hb with rfl | hb
        · omega
        · rcases List.mem_singleton.mp hb with rfl
          omega

theorem utf8Bytes_lt (s : Str) : ∀ b ∈ utf8Bytes s, b < 256 := by
  intro b hb
  unfold utf8Bytes at hb
  rw [List.mem_flatMap] at hb
  obtain ⟨c, _, hbc⟩ := hb
  exact utf8EncChar_lt c b hbc

theorem utf8DecSM_none_cons (b : Nat) (bs : List Nat) :
    utf8DecSM none (b :: bs) =
      if b < 0x80 then (utf8DecSM none bs).map (fun s => Char.ofNat b :: s)
      else if b < 0xC0 then none
      else if b < 0xE0 then utf8DecSM (some (b - 0xC0, 1)) bs
      else if b < 0xF0 then utf8DecSM (some (b - 0xE0, 2)) bs
      else if b < 0xF8 then utf8DecSM (some (b - 0xF0, 3)) bs
      else none := rfl

theorem utf8DecSM_some_cons (v n b : Nat) (bs : List Nat) :
    utf8DecSM (some (v, n)) (b :: bs) =
      if isCont b then
        if n = 1 then (utf8DecSM none bs).map (fun s => Char.ofNat (v * 64 + (b - 0x80)) :: s)
        else utf8DecSM (some (v * 64 + (b - 0x80), n - 1)) bs
      else none := rfl

theorem utf8Dec_append (c : Char) (rest : List Nat) :
    utf8Dec (utf8EncChar c ++ rest) = (utf8Dec rest).map (fun s => c :: s) := by
  have hv := char_toNat_lt c
  unfold utf8Dec utf8EncChar
  dsimp only
  split_ifs with h1 h2 h3
  · rw [List.cons_append, List.nil_append, utf8DecSM_none_cons, if_pos h1, Char.ofNat_toNat]
  · rw [List.cons_append, List.cons_append, List.nil_append, utf8DecSM_none_cons]
    rw [if_neg (by omega), if_neg (by omega), if_pos (by omega)]
    rw [utf8DecSM_some_cons]
    rw [if_pos (by simp [isCont]; omega), if_pos rfl]
    have e : (0xC0 + c.toNat / 64 - 0xC0) * 64 + (0x80 + c.toNat % 64 - 0x80) = c.toNat := by
      omega
    rw [e, Char.ofNat_toNat]
  · rw [List.cons_append, List.cons_append, List.cons_append, List.nil_append,
      utf8DecSM_none_cons]
    rw [if_neg (by omega), if_neg (by omega), if_neg (by omega), if_pos (by omega)]
    rw [utf8DecSM_some_cons]
    rw [if_pos (by simp [isCont]; omega), if_neg (by norm_num)]
    rw [utf8DecSM_some_cons]
    rw [if_pos (by simp [isCont]; omega), if_pos (by norm_num)]
    have e : ((0xE0 + c.toNat / 4096 - 0xE0) * 64 + (0x80 + c.toNat / 64 % 64 - 0x80)) * 64 +
        (0x80 + c.toNat % 64 - 0x80) = c.toNat := by omega
    rw [e, Char.ofNat_toNat]
  · rw [List.cons_append, List.cons_append, List.cons_append, List.cons_append,
      List.nil_append, utf8DecSM_none_cons]
    rw [if_neg (by omega), if_neg (by omega), if_neg (by omega), if_neg (by omega),
      if_pos (by omega)]
    rw [utf8DecSM_some_cons]
    rw [if_pos (by simp [isCont]; omega), if_neg (by norm_num)]
    rw [utf8DecSM_some_cons]
    rw [if_pos (by simp [isCont]; omega), if_neg (by norm_num)]
    rw [utf8DecSM_some_cons]
    rw [if_pos (by simp [isCont]; omega), if_pos (by norm_num)]
    have e : (((0xF0 + c.toNat / 262144 - 0xF0) * 64 + (0x80 + c.toNat / 4096 % 64 - 0x80)) * 64 +
        (0x80 + c.toNat / 64 % 64 - 0x80)) * 64 + (0x80 + c.toNat % 64 - 0x80) = c.toNat := by
      omega
    rw [e, Char.ofNat_toNat]

theorem utf8Dec_utf8Bytes (s : Str) : utf8Dec (utf8Bytes s) = some s := by
  induction s with
  | nil => rfl
  | cons c cs ih =>
    have : utf8Bytes (c :: cs) = utf8EncChar c ++ utf8Bytes cs := by
      unfold utf8Bytes
      rw [List.flatMap_cons]
    rw [this, utf8Dec_append, ih]
    rfl

/-- The transport encoding of the session codec is reversed byte-for-byte by
the import decode path. -/
theorem decodeText_encodeText (s : Str) : decodeText (encodeText s) = some s := by
  unfold decodeText encodeText
  rw [b64Dec_b64Enc (utf8Bytes s) (utf8Bytes_lt s)]
  simpa using utf8Dec_utf8Bytes s

theorem qLen_pLen (n : Nat) (r : Str) : qLen (pLen n ++ r) = some (n, r) := by
  induction n with
  | zero => rfl
  | succ n ih =>
    have : pLen (n + 1) ++ r = '1' :: (pLen n ++ r) := by
      unfold pLen
      rw [List.replicate_succ]
      simp
    rw [this]
    show Option.map (fun p => (p.1 + 1, p.2)) (qLen (pLen n ++ r)) = some (n + 1, r)
    rw [ih]
    rfl

theorem qNat_pNat (n : Nat) (r : Str) : qNat (pNat n ++ r) = some (n, r) := qLen_pLen n r

theorem qStr_pStr (t : Str) (r : Str) : qStr (pStr t ++ r) = some (t, r) := by
  unfold qStr pStr
  rw [List.append_assoc, qLen_pLen]
  simp only [Option.some_bind]
  rw [if_pos (by simp)]
  rw [List.take_left' rfl, List.drop_left' rfl]

theorem qMany_roundtrip {α : Type} (q : Str → Option (α × Str)) (p : α → Str) (l : List α)
    (h : ∀ a ∈ l, ∀ r : Str, q (p a ++ r) = some (a, r)) (r : Str) :
    qMany q l.length ((l.map p).flatten ++ r) = some (l, r) := by
  induction l with
  | nil => rfl
  | cons a l ih =>
    rw [List.length_cons, List.map_cons, List.flatten_cons, List.append_assoc]
    unfold qMany
    rw [h a (List.mem_cons_self a l)]
    simp only [Option.some_bind]
    rw [ih (fun x hx r' => h x (List.mem_cons_of_mem a hx) r')]
    rfl

theorem qList_pList {α : Type} (q : Str → Option (α × Str)) (p : α → Str) (l : List α)
    (h : ∀ a ∈ l, ∀ r : Str, q (p a ++ r) = some (a, r)) (r : Str) :
    qList q (pList p l ++ r) = some (l, r) := by
  unfold qList pList
  rw [List.append_assoc, qLen_pLen]
  simp only [Option.some_bind]
  exact qMany_roundtrip q p l h r

theorem qOpt_pOpt {α : Type} (q : Str → Option (α × Str)) (p : α → Str) (o : Option α)
    (h : ∀ a, ∀ r : Str, q (p a ++ r) = some (a, r)) (r : Str) :
    qOpt q (pOpt p o ++ r) = some (o, r) := by
  cases o with
  | none => rfl
  | some a =>
    show Option.map (fun p => (some p.1, p.2)) (q (p a ++ r)) = some (some a, r)
    rw [h a r]
    rfl

theorem qPair_pPair {α β : Type} (qa : Str → Option (α × Str)) (qb : Str → Option (β × Str))
    (pa : α → Str) (pb : β → Str) (x : α × β)
    (ha : ∀ r : Str, qa (pa x.1 ++ r) = some (x.1, r))
    (hb : ∀ r : Str, qb (pb x.2 ++ r) = some (x.2, r)) (r : Str) :
    qPair qa qb (pPair pa pb x ++ r) = some (x, r) := by
  unfold qPair pPair
  rw [List.append_assoc, ha]
  simp only [Option.some_bind]
  rw [hb]
  rfl

theorem qRichTag_pRichTag (t : RichTag) (r : Str) : qRichTag (pRichTag t ++ r) = some (t, r) := by
  unfold qRichTag pRichTag
  simp only [List.append_assoc, qStr_pStr, qNat_pNat, Option.some_bind, Option.map_some]
  rfl

theorem qRoom_pRoom (rm : Room) (r : Str) : qRoom (pRoom rm ++ r) = some (rm, r) := by
  unfold qRoom pRoom
  simp only [List.append_assoc, qStr_pStr, Option.some_bind]
  rw [qOpt_pOpt qStr pStr rm.floor qStr_pStr]
  simp only [Option.some_bind, qStr_pStr, qNat_pNat]
  rw [qList_pList qStr pStr rm.tags (fun a _ r' => qStr_pStr a r')]
  simp only [Option.some_bind, qStr_pStr, Option.map_some]
  rfl

theorem qFilters_pFilters (f : Filters) (r : Str) : qFilters (pFilters f ++ r) = some (f, r) := by
  unfold qFilters pFilters
  simp only [List.append_assoc, qStr_pStr, Option.some_bind]
  rw [qList_pList qStr pStr f.tags (fun a _ r' => qStr_pStr a r')]
  rfl

theorem qSessionData_pSessionData (d : SessionData) (r : Str) :
    qSessionData (pSessionData d ++ r) = some (d, r) := by
  unfold qSessionData pSessionData
  simp only [List.append_assoc]
  rw [qList_pList qRoom pRoom d.processedData (fun a _ r' => qRoom_pRoom a r')]
  simp only [Option.some_bind]
  rw [qList_pList (qPair qNat (qList qRichTag)) (pPair pNat (pList pRichTag)) d.customTags
    (fun a _ r' => qPair_pPair qNat (qList qRichTag) pNat (pList pRichTag) a
      (fun r'' => qNat_pNat a.1 r'')
      (fun r'' => qList_pList qRichTag pRichTag a.2 (fun x _ r3 => qRichTag_pRichTag x r3) r'') r')]
  simp only [Option.some_bind]
  rw [qList_pList (qPair qNat (qList qStr)) (pPair pNat (pList pStr)) d.staffTags
    (fun a _ r' => qPair_pPair qNat (qList qStr) pNat (pList pStr) a
      (fun r'' => qNat_pNat a.1 r'')
      (fun r'' => qList_pList qStr pStr a.2 (fun x _ r3 => qStr_pStr x r3) r'') r')]
  simp only [Option.some_bind]
  rw [qList_pList (qPair qStr qStr) (pPair pStr pStr) d.buildingColors
    (fun a _ r' => qPair_pPair qStr qStr pStr pStr a
      (fun r'' => qStr_pStr a.1 r'') (fun r'' => qStr_pStr a.2 r'') r')]
  simp only [Option.some_bind]
  rw [qFilters_pFilters]
  simp only [Option.some_bind, qStr_pStr, qNat_pNat, Option.map_some]
  rfl

theorem parseSessionDoc_printSessionDoc (doc : SessionDoc) :
    parseSessionDoc (printSessionDoc doc) = some doc := by
  unfold parseSessionDoc printSessionDoc
  have hnil : pStr doc.version ++ pStr doc.timestamp ++ pStr doc.type ++ pSessionData doc.data =
      pStr doc.version ++ (pStr doc.timestamp ++ (pStr doc.type ++ (pSessionData doc.data ++ []))) := by
    simp
  rw [hnil, qStr_pStr]
  simp only [Option.some_bind]
  rw [qStr_pStr]
  simp only [Option.some_bind]
  rw [qStr_pStr]
  simp only [Option.some_bind]
  rw [qSessionData_pSessionData]
  rfl

/-- Claim C6: for every state with a non-empty dataset or custom-tag map,
importing the document produced by `exportSession` succeeds and restores
rooms, custom tags and staff tags deep-equal to the exported ones, with the
three facet sets recomputed from the restored rooms; and the base64/UTF-8
text encoding of the codec is reversed byte-for-byte by the import decode
path. -/
theorem session_roundtrip (now : Str) (st st0 : AppState)
    (h : st.processedData ≠ [] ∨ st.customTags ≠ []) :
    (∃ doc, exportSession now st = some doc ∧
      ∃ st', importSession doc st0 = some st' ∧
        st'.processedData = st.processedData ∧
        st'.customTags = st.customTags ∧
        st'.staffTags = st.staffTags ∧
        st'.availableBuildings = buildingsFacet st.processedData ∧
        st'.availableFloors = floorsFacetImported st.processedData ∧
        st'.availableTags = tagsFacet st.processedData) ∧
    (∀ s : Str, decodeText (encodeText s) = some s) := by
  refine ⟨?_, decodeText_encodeText⟩
  have hne : ¬ (st.processedData = [] ∧ st.customTags = []) := by tauto
  refine ⟨encodeText (printSessionDoc
    { version := lit ("1.1"), timestamp := now, type := lit ("um_session"),
      data :=
        { processedData := st.processedData, customTags := st.customTags,
          staffTags := st.staffTags, buildingColors := st.buildingColors,
          activeFilters := st.activeFilters, searchQuery := st.searchQuery,
          currentViewMode := st.currentViewMode, resultsPerPage := st.resultsPerPage } }),
    ?_, ?_⟩
  · unfold exportSession
    rw [if_neg hne]
  · unfold importSession
    rw [decodeText_encodeText]
    simp only [Option.some_bind, parseSessionDoc_printSessionDoc]
    rw [if_neg (by simp)]
    exact ⟨_, rfl, rfl, rfl, rfl, rfl, rfl, rfl⟩

theorem session_roundtrip_witness :
    (∃ doc, exportSession [] wStateC6 = some doc ∧
      ∃ st', importSession doc initialState = some st' ∧
        st'.processedData = wStateC6.processedData ∧
        st'.customTags = wStateC6.customTags ∧
        st'.staffTags = wStateC6.staffTags ∧
        st'.availableBuildings = buildingsFacet wStateC6.processedData ∧
        st'.availableFloors = floorsFacetImported wStateC6.processedData ∧
        st'.availableTags = tagsFacet wStateC6.processedData) ∧
    (∀ s : Str, decodeText (encodeText s) = some s) :=
  session_roundtrip [] wStateC6 initialState (Or.inl (by decide))

theorem strLe_total (a b : Str) : strLe a b = true ∨ strLe b a = true := by
  induction a generalizing b with
  | nil => left; rfl
  | cons x s ih =>
    cases b with
    | nil => right; rfl
    | cons y t =>
      unfold strLe
      rcases Nat.lt_trichotomy x.toNat y.toNat with h | h | h
      · left; rw [if_pos h]
      · rw [if_neg (by omega), if_neg (by omega), if_neg (by omega), if_neg (by omega)]
        exact ih t
      · right; rw [if_pos h]

theorem strLe_trans (a b c : Str) (h1 : strLe a b = true) (h2 : strLe b c = true) :
    strLe a c = true := by
  induction a generalizing b c with
  | nil => rfl
  | cons x s ih =>
    cases b with
    | nil => exact absurd h1 (by simp [strLe])
    | cons y t =>
      cases c with
      | nil => exact absurd h2 (by simp [strLe])
      | cons z u =>
        unfold strLe at h1 h2 ⊢
        rcases Nat.lt_trichotomy x.toNat y.toNat with hxy | hxy | hxy <;>
          rcases Nat.lt_trichotomy y.toNat z.toNat with hyz | hyz | hyz
        · rw [if_pos (by omega)]
        · rw [if_pos (by omega)]
        · rw [if_neg (by omega), if_pos (by omega)] at h2
          exact absurd h2 (by simp)
        · rw [if_pos (by omega)]
        · rw [if_neg (by omega), if_neg (by omega)] at h1 h2
          rw [if_neg (by omega), if_neg (by omega)]
          exact ih t u h1 h2
        · rw [if_neg (by omega)] at h2
          rw [if_pos (by omega)] at h2
          exact absurd h2 (by simp)
        · rw [if_neg (by omega), if_pos (by omega)] at h1
          exact absurd h1 (by simp)
        · rw [if_neg (by omega), if_pos (by omega)] at h1
          exact absurd h1 (by simp)
        · rw [if_neg (by omega), if_pos (by omega)] at h1
          exact absurd h1 (by simp)

theorem addSet_mem_or (l : List Str) (x : Str) : ∀ y ∈ addSet l x, y ∈ l ∨ y = x := by
  intro y hy
  unfold addSet at hy
  split_ifs at hy with h
  · exact Or.inl hy
  · rcases List.mem_append.mp hy with hy | hy
    · exact Or.inl hy
    · exact Or.inr (List.mem_singleton.mp hy)

theorem addSet_nodup (l : List Str) (x : Str) (h : l.Nodup) : (addSet l x).Nodup := by
  unfold addSet
  split_ifs with hmem
  · exact h
  · rw [List.nodup_append]
    exact ⟨h, List.nodup_singleton x, by simpa using hmem⟩

theorem addSet_length (l : List Str) (x : Str) : (addSet l x).length ≤ l.length + 1 := by
  unfold addSet
  split_ifs <;> simp

theorem addTagAndValue_inv (sugg : List Str) (tag : Str) :
    ((addTagAndValue sugg tag).Nodup ∨ ¬ sugg.Nodup) ∧
    (sugg.length ≤ 5001 → (addTagAndValue sugg tag).length ≤ 5001) ∧
    (∀ y ∈ addTagAndValue sugg tag,
      y ∈ sugg ∨ y = tag ∨ (tag.contains ':' = true ∧ y = splitValue tag)) := by
  unfold addTagAndValue autocompleteLimit
  dsimp only
  split_ifs with hlen hcol
  · refine ⟨?_, ?_, ?_⟩
    · by_cases hnd : sugg.Nodup
      · exact Or.inl (addSet_nodup _ _ (addSet_nodup _ _ hnd))
      · exact Or.inr hnd
    · intro _
      have h1 := addSet_length sugg tag
      have h2 := addSet_length (addSet sugg tag) (splitValue tag)
      omega
    · intro y hy
      rcases addSet_mem_or _ _ y hy with hy | hy
      · rcases addSet_mem_or _ _ y hy with hy | hy
        · exact Or.inl hy
        · exact Or.inr (Or.inl hy)
      · exact Or.inr (Or.inr ⟨hcol, hy⟩)
  · refine ⟨?_, ?_, ?_⟩
    · by_cases hnd : sugg.Nodup
      · exact Or.inl (addSet_nodup _ _ hnd)
      · exact Or.inr hnd
    · intro _
      have h1 := addSet_length sugg tag
      omega
    · intro y hy
      rcases addSet_mem_or _ _ y hy with hy | hy
      · exact Or.inl hy
      · exact Or.inr (Or.inl hy)
  · exact ⟨by tauto, fun h => h, fun y hy => Or.inl hy⟩

theorem foldl_addTagAndValue_inv (tags : List Str) :
    ∀ sugg : List Str,
      ((tags.foldl addTagAndValue sugg).Nodup ∨ ¬ sugg.Nodup) ∧
      (sugg.length ≤ 5001 → (tags.foldl addTagAndValue sugg).length ≤ 5001) ∧
      (∀ y ∈ tags.foldl addTagAndValue sugg,
        y ∈ sugg ∨ ∃ tag ∈ tags, y = tag ∨ (tag.contains ':' = true ∧ y = splitValue tag)) := by
  induction tags with
  | nil => exact fun sugg => ⟨by tauto, fun h => h, fun y hy => Or.inl hy⟩
  | cons tag tags ih =>
    intro sugg
    rw [List.foldl_cons]
    obtain ⟨ihn, ihl, ihm⟩ := ih (addTagAndValue sugg tag)
    obtain ⟨hn, hl, hm⟩ := addTagAndValue_inv sugg tag
    refine ⟨?_, ?_, ?_⟩
    · rcases ihn with ihn | ihn
      · exact Or.inl ihn
      · rcases hn with hn | hn
        · exact absurd hn ihn
        · exact Or.inr hn
    · intro hs
      exact ihl (hl hs)
    · intro y hy
      rcases ihm y hy with hy' | ⟨t, ht, hy'⟩
      · rcases hm y hy' with hs | hs
        · exact Or.inl hs
        · exact Or.inr ⟨tag, List.mem_cons_self tag tags, hs⟩
      · exact Or.inr ⟨t, List.mem_cons_of_mem tag ht, hy'⟩

theorem autoProcessRoom_inv (st : AppState) (sugg : List Str) (room : Room) :
    ((autoProcessRoom st sugg room).Nodup ∨ ¬ sugg.Nodup) ∧
    (sugg.length ≤ 5001 → (autoProcessRoom st sugg room).length ≤ 5001) ∧
    (∀ y ∈ autoProcessRoom st sugg room,
      y ∈ sugg ∨
      (∃ tag ∈ createUnifiedTags st room,
          y = tag ∨ (tag.contains ':' = true ∧ y = splitValue tag)) ∨
      (room.rmnbr ≠ [] ∧ y = room.rmnbr)) := by
  unfold autoProcessRoom autocompleteLimit
  dsimp only
  obtain ⟨fn, fl, fm⟩ := foldl_addTagAndValue_inv (createUnifiedTags st room) sugg
  split_ifs with hfull hrm
  · exact ⟨by tauto, fun h => h, fun y hy => Or.inl hy⟩
  · refine ⟨?_, ?_, ?_⟩
    · rcases fn with fn | fn
      · exact Or.inl (addSet_nodup _ _ fn)
      · exact Or.inr fn
    · intro hs
      have h1 := addSet_length ((createUnifiedTags st room).foldl addTagAndValue sugg)
        room.rmnbr
      omega
    · intro y hy
      rcases addSet_mem_or _ _ y hy with hy | hy
      · rcases fm y hy with hy' | ⟨t, ht, hy'⟩
        · exact Or.inl hy'
        · exact Or.inr (Or.inl ⟨t, ht, hy'⟩)
      · exact Or.inr (Or.inr ⟨hrm.1, hy⟩)
  · refine ⟨fn, fun hs => fl hs, ?_⟩
    intro y hy
    rcases fm y hy with hy' | ⟨t, ht, hy'⟩
    · exact Or.inl hy'
    · exact Or.inr (Or.inl ⟨t, ht, hy'⟩)

theorem foldl_autoProcessRoom_inv (st : AppState) (rooms : List Room) :
    ∀ sugg : List Str,
      ((rooms.foldl (autoProcessRoom st) sugg).Nodup ∨ ¬ sugg.Nodup) ∧
      (sugg.length ≤ 5001 → (rooms.foldl (autoProcessRoom st) sugg).length ≤ 5001) ∧
      (∀ y ∈ rooms.foldl (autoProcessRoom st) sugg,
        y ∈ sugg ∨ ∃ room ∈ rooms,
          (∃ tag ∈ createUnifiedTags st room,
              y = tag ∨ (tag.contains ':' = true ∧ y = splitValue tag)) ∨
          (room.rmnbr ≠ [] ∧ y = room.rmnbr)) := by
  induction rooms with
  | nil => exact fun sugg => ⟨by tauto, fun h => h, fun y hy => Or.inl hy⟩
  | cons room rooms ih =>
    intro sugg
    rw [List.foldl_cons]
    obtain ⟨ihn, ihl, ihm⟩ := ih (autoProcessRoom st sugg room)
    obtain ⟨hn, hl, hm⟩ := autoProcessRoom_inv st sugg room
    refine ⟨?_, fun hs => ihl (hl hs), ?_⟩
    · rcases ihn with ihn | ihn
      · exact Or.inl ihn
      · rcases hn with hn | hn
        · exact absurd hn ihn
        · exact Or.inr hn
    · intro y hy
      rcases ihm y hy with hy' | ⟨rm, hrm, hy'⟩
      · rcases hm y hy' with hs | hs
        · exact Or.inl hs
        · exact Or.inr ⟨room, List.mem_cons_self room rooms, hs⟩
      · exact Or.inr ⟨rm, List.mem_cons_of_mem room hrm, hy'⟩

theorem mem_addSet_self (l : List Str) (x : Str) : x ∈ addSet l x := by
  unfold addSet
  split_ifs with h
  · exact h
  · exact List.mem_append_right l (List.mem_singleton_self x)

theorem mem_addSet_of_mem (l : List Str) (x y : Str) (h : y ∈ l) : y ∈ addSet l x := by
  unfold addSet
  split_ifs with hx
  · exact h
  · exact List.mem_append_left _ h

theorem length_le_addSet (l : List Str) (x : Str) : l.length ≤ (addSet l x).length := by
  unfold addSet
  split_ifs <;> simp

theorem mem_addTagAndValue_of_mem (sugg : List Str) (tag y : Str) (h : y ∈ sugg) :
    y ∈ addTagAndValue sugg tag := by
  unfold addTagAndValue
  dsimp only
  split_ifs with hlen hcol
  · exact mem_addSet_of_mem _ _ _ (mem_addSet_of_mem _ _ _ h)
  · exact mem_addSet_of_mem _ _ _ h
  · exact h

theorem length_le_addTagAndValue (sugg : List Str) (tag : Str) :
    sugg.length ≤ (addTagAndValue sugg tag).length := by
  unfold addTagAndValue
  dsimp only
  split_ifs with hlen hcol
  · exact le_trans (length_le_addSet sugg tag) (length_le_addSet _ _)
  · exact length_le_addSet sugg tag
  · exact le_refl _

theorem mem_foldl_addTagAndValue_of_mem (tags : List Str) :
    ∀ sugg y, y ∈ sugg → y ∈ tags.foldl addTagAndValue sugg := by
  induction tags with
  | nil => exact fun sugg y h => h
  | cons tag tags ih =>
    intro sugg y h
    rw [List.foldl_cons]
    exact ih _ y (mem_addTagAndValue_of_mem sugg tag y h)

theorem length_le_foldl_addTagAndValue (tags : List Str) :
    ∀ sugg : List Str, sugg.length ≤ (tags.foldl addTagAndValue sugg).length := by
  induction tags with
  | nil => exact fun sugg => le_refl _
  | cons tag tags ih =>
    intro sugg
    rw [List.foldl_cons]
    exact le_trans (length_le_addTagAndValue sugg tag) (ih _)

theorem addTagAndValue_complete (sugg : List Str) (tag : Str)
    (h : sugg.length < autocompleteLimit) :
    tag ∈ addTagAndValue sugg tag ∧
    (tag.contains ':' = true → splitValue tag ∈ addTagAndValue sugg tag) := by
  unfold addTagAndValue
  dsimp only
  rw [if_pos h]
  split_ifs with hcol
  · exact ⟨mem_addSet_of_mem _ _ _ (mem_addSet_self sugg tag), fun _ => mem_addSet_self _ _⟩
  · exact ⟨mem_addSet_self sugg tag, fun hc => absurd hc hcol⟩

theorem foldl_addTagAndValue_complete (tags : List Str) :
    ∀ sugg : List Str, (tags.foldl addTagAndValue sugg).length < autocompleteLimit →
      ∀ tag ∈ tags, tag ∈ tags.foldl addTagAndValue sugg ∧
        (tag.contains ':' = true → splitValue tag ∈ tags.foldl addTagAndValue sugg) := by
  induction tags with
  | nil =>
    intro sugg h tag ht
    exact absurd ht (List.not_mem_nil tag)
  | cons t ts ih =>
    intro sugg h tag ht
    rw [List.foldl_cons] at h ⊢
    rcases List.mem_cons.mp ht with rfl | ht'
    · have hs : sugg.length < autocompleteLimit := by
        have h1 := length_le_addTagAndValue sugg tag
        have h2 := length_le_foldl_addTagAndValue ts (addTagAndValue sugg tag)
        omega
      obtain ⟨h3, h4⟩ := addTagAndValue_complete sugg tag hs
      exact ⟨mem_foldl_addTagAndValue_of_mem ts _ _ h3,
        fun hc => mem_foldl_addTagAndValue_of_mem ts _ _ (h4 hc)⟩
    · exact ih _ h tag ht'

theorem length_le_autoProcessRoom (st : AppState) (sugg : List Str) (room : Room) :
    sugg.length ≤ (autoProcessRoom st sugg room).length := by
  unfold autoProcessRoom
  dsimp only
  split_ifs with hfull hrm
  · exact le_refl _
  · exact le_trans (length_le_foldl_addTagAndValue _ sugg) (length_le_addSet _ _)
  · exact length_le_foldl_addTagAndValue _ sugg

theorem mem_autoProcessRoom_of_mem (st : AppState) (sugg : List Str) (room : Room)
    (y : Str) (h : y ∈ sugg) : y ∈ autoProcessRoom st sugg room := by
  unfold autoProcessRoom
  dsimp only
  split_ifs with hfull hrm
  · exact h
  · exact mem_addSet_of_mem _ _ _ (mem_foldl_addTagAndValue_of_mem _ _ _ h)
  · exact mem_foldl_addTagAndValue_of_mem _ _ _ h

theorem autoProcessRoom_complete (st : AppState) (sugg : List Str) (room : Room)
    (h : (autoProcessRoom st sugg room).length < autocompleteLimit) :
    (∀ tag ∈ createUnifiedTags st room,
      tag ∈ autoProcessRoom st sugg room ∧
        (tag.contains ':' = true → splitValue tag ∈ autoProcessRoom st sugg room)) ∧
    (room.rmnbr ≠ [] → room.rmnbr ∈ autoProcessRoom st sugg room) := by
  unfold autoProcessRoom at h ⊢
  dsimp only at h ⊢
  split_ifs at h ⊢ with hfull hrm
  · exact absurd hfull (not_le.mpr h)
  · have hfold : ((createUnifiedTags st room).foldl addTagAndValue sugg).length <
        autocompleteLimit := by
      have h1 := length_le_addSet ((createUnifiedTags st room).foldl addTagAndValue sugg)
        room.rmnbr
      omega
    refine ⟨fun tag htag => ?_, fun hne => mem_addSet_self _ _⟩
    obtain ⟨h3, h4⟩ := foldl_addTagAndValue_complete (createUnifiedTags st room) sugg
      hfold tag htag
    exact ⟨mem_addSet_of_mem _ _ _ h3, fun hc => mem_addSet_of_mem _ _ _ (h4 hc)⟩
  · refine ⟨fun tag htag => ?_, fun hne => absurd ⟨hne, h⟩ hrm⟩
    exact foldl_addTagAndValue_complete (createUnifiedTags st room) sugg h tag htag

theorem length_le_foldl_autoProcessRoom (st : AppState) (rooms : List Room) :
    ∀ sugg : List Str, sugg.length ≤ (rooms.foldl (autoProcessRoom st) sugg).length := by
  induction rooms with
  | nil => exact fun sugg => le_refl _
  | cons room rooms ih =>
    intro sugg
    rw [List.foldl_cons]
    exact le_trans (length_le_autoProcessRoom st sugg room) (ih _)

theorem mem_foldl_autoProcessRoom_of_mem (st : AppState) (rooms : List Room) :
    ∀ sugg y, y ∈ sugg → y ∈ rooms.foldl (autoProcessRoom st) sugg := by
  induction rooms with
  | nil => exact fun sugg y h => h
  | cons room rooms ih =>
    intro sugg y h
    rw [List.foldl_cons]
    exact ih _ y (mem_autoProcessRoom_of_mem st sugg room y h)

theorem foldl_autoProcessRoom_complete (st : AppState) (rooms : List Room) :
    ∀ sugg : List Str,
      (rooms.foldl (autoProcessRoom st) sugg).length < autocompleteLimit →
      ∀ room ∈ rooms,
        (∀ tag ∈ createUnifiedTags st room,
          tag ∈ rooms.foldl (autoProcessRoom st) sugg ∧
            (tag.contains ':' = true →
              splitValue tag ∈ rooms.foldl (autoProcessRoom st) sugg)) ∧
        (room.rmnbr ≠ [] → room.rmnbr ∈ rooms.foldl (autoProcessRoom st) sugg) := by
  induction rooms with
  | nil =>
    intro sugg h room hr
    exact absurd hr (List.not_mem_nil room)
  | cons r rs ih =>
    intro sugg h room hr
    rw [List.foldl_cons] at h ⊢
    rcases List.mem_cons.mp hr with rfl | hr'
    · have hs : (autoProcessRoom st sugg room).length < autocompleteLimit := by
        have h2 := length_le_foldl_autoProcessRoom st rs (autoProcessRoom st sugg room)
        omega
      obtain ⟨ht, hn⟩ := autoProcessRoom_complete st sugg room hs
      refine ⟨fun tag htag => ?_,
        fun hne => mem_foldl_autoProcessRoom_of_mem st rs _ _ (hn hne)⟩
      obtain ⟨h3, h4⟩ := ht tag htag
      exact ⟨mem_foldl_autoProcessRoom_of_mem st rs _ _ h3,
        fun hc => mem_foldl_autoProcessRoom_of_mem st rs _ _ (h4 hc)⟩
    · exact ih _ h room hr'

/-- Claim C4 (amended): `buildUnifiedAutocomplete` returns a
lexicographically sorted, duplicate-free list of at most 5001 entries (the
cap check precedes the adds of one iteration, so the bare value of a
qualified tag accepted at size 4999 can land one past the 5000 cap), each
entry being a synthesized tag of some room, the bare value of some room's
qualified `"prefix:value"` tag, or some room's bare room number; and
whenever the result stays below 5000 entries — i.e. the cap was never
reached, the suggestion count being monotone — it is complete: it contains
every room's every synthesized tag, the bare value of each of its qualified
tags, and each room's non-empty bare room number. -/
theorem buildUnifiedAutocomplete_spec (st : AppState) :
    (buildUnifiedAutocomplete st).Sorted strLeP ∧
    (buildUnifiedAutocomplete st).Nodup ∧
    (buildUnifiedAutocomplete st).length ≤ 5001 ∧
    (∀ y ∈ buildUnifiedAutocomplete st, ∃ room ∈ st.processedData,
      (∃ tag ∈ createUnifiedTags st room,
          y = tag ∨ (tag.contains ':' = true ∧ y = splitValue tag)) ∨
      (room.rmnbr ≠ [] ∧ y = room.rmnbr)) ∧
    ((buildUnifiedAutocomplete st).length < 5000 →
      ∀ room ∈ st.processedData,
        (∀ tag ∈ createUnifiedTags st room,
          tag ∈ buildUnifiedAutocomplete st ∧
            (tag.contains ':' = true →
              splitValue tag ∈ buildUnifiedAutocomplete st)) ∧
        (room.rmnbr ≠ [] → room.rmnbr ∈ buildUnifiedAutocomplete st)) := by
  obtain ⟨hn, hl, hm⟩ := foldl_autoProcessRoom_inv st st.processedData []
  have hperm : List.Perm (buildUnifiedAutocomplete st)
      (st.processedData.foldl (autoProcessRoom st) []) :=
    List.perm_insertionSort strLeP _
  haveI : IsTotal Str strLeP := ⟨fun a b => strLe_total a b⟩
  haveI : IsTrans Str strLeP := ⟨fun a b c => strLe_trans a b c⟩
  refine ⟨List.sorted_insertionSort strLeP _, ?_, ?_, ?_, ?_⟩
  · rw [hperm.nodup_iff]
    rcases hn with hn | hn
    · exact hn
    · exact absurd List.nodup_nil hn
  · rw [hperm.length_eq]
    exact hl (by simp)
  · intro y hy
    have hy' := hperm.mem_iff.mp hy
    rcases hm y hy' with hy'' | hgood
    · exact absurd hy'' (List.not_mem_nil y)
    · exact hgood
  · intro hlt room hroom
    rw [hperm.length_eq] at hlt
    obtain ⟨ht, hnbr⟩ := foldl_autoProcessRoom_complete st st.processedData [] hlt
      room hroom
    refine ⟨fun tag htag => ?_, fun hne => hperm.mem_iff.mpr (hnbr hne)⟩
    obtain ⟨h3, h4⟩ := ht tag htag
    exact ⟨hperm.mem_iff.mpr h3, fun hc => hperm.mem_iff.mpr (h4 hc)⟩

theorem abc_lower_aux : ∀ d < 26, Char.toLower (alphaChars.getD d 'a') = alphaChars.getD d 'a' := by
  decide

theorem abc_range_aux : ∀ d < 26,
    97 ≤ (alphaChars.getD d 'a').toNat ∧ (alphaChars.getD d 'a').toNat ≤ 122 := by decide

theorem abc_inj_aux : ∀ d < 26, ∀ e < 26,
    alphaChars.getD d 'a' = alphaChars.getD e 'a' → d = e := by decide

theorem abc_lower (d : Nat) : Char.toLower (abc d) = abc d :=
  abc_lower_aux (d % 26) (Nat.mod_lt _ (by norm_num))

theorem abc_range (d : Nat) : 97 ≤ (abc d).toNat ∧ (abc d).toNat ≤ 122 :=
  abc_range_aux (d % 26) (Nat.mod_lt _ (by norm_num))

theorem abc_inj (d e : Nat) (h : abc d = abc e) : d % 26 = e % 26 :=
  abc_inj_aux (d % 26) (Nat.mod_lt _ (by norm_num)) (e % 26) (Nat.mod_lt _ (by norm_num)) h

theorem code3_lower (i : Nat) : lowerStr (code3 i) = code3 i := by
  simp [code3, lowerStr, abc_lower]

theorem code3_len (i : Nat) : (code3 i).length = 3 := rfl

theorem code3_ne_nil (i : Nat) : code3 i ≠ [] := by
  intro h
  have := congrArg List.length h
  simp [code3_len] at this

theorem code3_inj (i j : Nat) (hi : i < 17576) (hj : j < 17576) (h : code3 i = code3 j) :
    i = j := by
  unfold code3 at h
  simp only [List.cons.injEq, and_true] at h
  obtain ⟨h2, h1, h0⟩ := h
  have e2 := abc_inj _ _ h2
  have e1 := abc_inj _ _ h1
  have e0 := abc_inj _ _ h0
  omega

theorem code3_ne_colon (i : Nat) : ∀ c ∈ code3 i, ¬ c = ':' := by
  intro c hc
  unfold code3 at hc
  have hne : ∀ d : Nat, ¬ abc d = ':' := by
    intro d h
    have hr := abc_range d
    rw [h] at hr
    have : (':' : Char).toNat = 58 := rfl
    omega
  rcases List.mem_cons.mp hc with rfl | hc
  · exact hne _
  · rcases List.mem_cons.mp hc with rfl | hc
    · exact hne _
    · rcases List.mem_singleton.mp hc with rfl
      exact hne _

theorem code3_contains_colon (i : Nat) : (code3 i).contains ':' = false := by
  rw [Bool.eq_false_iff]
  intro h
  rw [List.contains_iff_exists_mem_beq] at h
  obtain ⟨a, ha, hbeq⟩ := h
  exact code3_ne_colon i a ha (eq_of_beq hbeq).symm

theorem room_tag_ne (s : Str) : ¬ lit ("room:") ++ lowerStr s = lowerStr s := by
  intro h
  have := congrArg List.length h
  simp [lit, lowerStr] at this
  omega

theorem createUnifiedTags_rmnbrRoom (s : Str) (hne : s ≠ []) :
    createUnifiedTags ceStateC4 (rmnbrRoom s) =
      [lowerStr s, lit ("room:") ++ lowerStr s] := by
  unfold createUnifiedTags
  have hfields : (rmnbrRoom s).building = [] ∧ (rmnbrRoom s).bld_descrshort = [] ∧
      (rmnbrRoom s).floor = none ∧ (rmnbrRoom s).dept_descr = [] ∧
      (rmnbrRoom s).typeFull = [] ∧ (rmnbrRoom s).tags = [] ∧
      (rmnbrRoom s).rmnbr = s ∧ (rmnbrRoom s).id = 0 := by
    refine ⟨rfl, rfl, rfl, rfl, rfl, rfl, rfl, rfl⟩
  obtain ⟨hb, hbd, hf, hd, ht, htg, hr, hid⟩ := hfields
  rw [hb, hbd, hf, hd, ht, htg, hr, hid]
  have hct : customTagsOf ceStateC4 0 = [] := rfl
  have hst : staffTagsOf ceStateC4 0 = [] := rfl
  rw [hct, hst]
  simp only [ne_eq, not_true_eq_false, false_and, if_false, reduceIte, List.flatMap_nil,
    List.append_nil, List.nil_append, hne, not_false_eq_true, if_true]
  unfold dedupFirst dedupFirstAux
  simp only [List.mem_nil_iff, if_false, reduceIte]
  simp [dedupFirstAux, room_tag_ne s]

theorem splitValue_room (s : Str) (h : ∀ c ∈ s, ¬ c = ':') :
    splitValue (lit ("room:") ++ s) = s := by
  show splitValue ('r' :: 'o' :: 'o' :: 'm' :: ':' :: s) = s
  unfold splitValue
  simp only [List.dropWhile_cons, decide_not]
  norm_num
  rw [if_neg (by decide), if_neg (by decide), if_neg (by decide), if_neg (by decide)]
  show List.takeWhile (fun c => !decide (c = ':')) s = s
  rw [List.takeWhile_eq_self_iff]
  intro x hx
  simp [h x hx]

theorem contains_colon_append (s : Str) :
    (lit ("room:") ++ s).contains ':' = true := by
  rw [List.contains_iff_exists_mem_beq]
  exact ⟨':', by simp [lit], by simp⟩

theorem addSet_of_mem (l : List Str) (x : Str) (h : x ∈ l) : addSet l x = l := by
  unfold addSet
  rw [if_pos h]

theorem addSet_of_not_mem (l : List Str) (x : Str) (h : x ∉ l) : addSet l x = l ++ [x] := by
  unfold addSet
  rw [if_neg h]

/-- One autocomplete iteration over a room carrying only an (all-lowercase,
colon-free) room number `s`: starting below the cap, it adds exactly `s` and
`"room:" ++ s` when both are fresh. -/
theorem autoProcessRoom_rmnbr (s : Str) (S : List Str)
    (hlow : lowerStr s = s) (hne : s ≠ []) (hnc : ∀ c ∈ s, ¬ c = ':')
    (h1 : s ∉ S) (h2 : lit ("room:") ++ s ∉ S) (hlen : S.length ≤ 4998) :
    autoProcessRoom ceStateC4 S (rmnbrRoom s) = S ++ [s, lit ("room:") ++ s] := by
  unfold autoProcessRoom autocompleteLimit
  rw [if_neg (by omega)]
  rw [createUnifiedTags_rmnbrRoom s hne, hlow]
  dsimp only
  rw [List.foldl_cons, List.foldl_cons, List.foldl_nil]
  have hcolS : s.contains ':' = false := by
    rw [Bool.eq_false_iff]
    intro hcon
    rw [List.contains_iff_exists_mem_beq] at hcon
    obtain ⟨a, ha, hbeq⟩ := hcon
    exact hnc a ha (eq_of_beq hbeq).symm
  have step1 : addTagAndValue S s = S ++ [s] := by
    unfold addTagAndValue autocompleteLimit
    rw [if_pos (by omega), addSet_of_not_mem S s h1, hcolS]
    simp
  have step2 : addTagAndValue (S ++ [s]) (lit ("room:") ++ s) =
      S ++ [s, lit ("room:") ++ s] := by
    unfold addTagAndValue autocompleteLimit
    rw [if_pos (by simp; omega)]
    have hfresh : lit ("room:") ++ s ∉ S ++ [s] := by
      rw [List.mem_append]
      rintro (hc | hc)
      · exact h2 hc
      · rcases List.mem_singleton.mp hc with hc
        have := congrArg List.length hc
        simp [lit] at this
        omega
    rw [addSet_of_not_mem _ _ hfresh, contains_colon_append, if_pos rfl]
    rw [splitValue_room s hnc]
    rw [addSet_of_mem _ s (by simp)]
    simp
  rw [step1, step2]
  have hmem : s ∈ S ++ [s, lit ("room:") ++ s] := by simp
  by_cases hfin : (rmnbrRoom s).rmnbr ≠ [] ∧ (S ++ [s, lit ("room:") ++ s]).length < 5000
  · rw [if_pos hfin]
    exact addSet_of_mem _ _ hmem
  · rw [if_neg hfin]

theorem interleave_length (l : List Nat) :
    (l.flatMap (fun i => [code3 i, lit ("room:") ++ code3 i])).length = 2 * l.length := by
  induction l with
  | nil => rfl
  | cons i l ih =>
    rw [List.flatMap_cons, List.length_append, ih]
    simp
    omega

theorem mem_interleave (l : List Nat) (y : Str) :
    y ∈ l.flatMap (fun i => [code3 i, lit ("room:") ++ code3 i]) ↔
      ∃ i ∈ l, y = code3 i ∨ y = lit ("room:") ++ code3 i := by
  simp [List.mem_flatMap]

theorem room_code_len (i : Nat) : (lit ("room:") ++ code3 i).length = 8 := by
  simp [lit, code3_len]

theorem fold_rmnbrRooms (l : List Nat) :
    ∀ S : List Str,
      (∀ i ∈ l, code3 i ∉ S ∧ lit ("room:") ++ code3 i ∉ S) →
      (l.map code3).Nodup →
      S.length + 2 * l.length ≤ 5000 →
      (l.map (fun i => rmnbrRoom (code3 i))).foldl (autoProcessRoom ceStateC4) S =
        S ++ l.flatMap (fun i => [code3 i, lit ("room:") ++ code3 i]) := by
  induction l with
  | nil =>
    intro S _ _ _
    simp
  | cons i l ih =>
    intro S hfresh hnd hlen
    rw [List.map_cons, List.foldl_cons]
    rw [List.length_cons] at hlen
    have hstep := autoProcessRoom_rmnbr (code3 i) S (code3_lower i) (code3_ne_nil i)
      (code3_ne_colon i) (hfresh i (List.mem_cons_self i l)).1
      (hfresh i (List.mem_cons_self i l)).2 (by omega)
    rw [hstep]
    have hci_notmap : code3 i ∉ l.map code3 := by
      rw [List.map_cons] at hnd
      exact (List.nodup_cons.mp hnd).1
    rw [ih (S ++ [code3 i, lit ("room:") ++ code3 i]) ?_ ?_ ?_]
    · rw [List.flatMap_cons]
      simp [List.append_assoc]
    · intro j hj
      have hj1 := (hfresh j (List.mem_cons_of_mem i hj)).1
      have hj2 := (hfresh j (List.mem_cons_of_mem i hj)).2
      constructor
      · rw [List.mem_append]
        rintro (hc | hc)
        · exact hj1 hc
        · rcases List.mem_cons.mp hc with hc | hc
          · exact hci_notmap (hc ▸ List.mem_map_of_mem code3 hj)
          · rcases List.mem_singleton.mp hc with hc
            have := congrArg List.length hc
            rw [code3_len, room_code_len] at this
            omega
      · rw [List.mem_append]
        rintro (hc | hc)
        · exact hj2 hc
        · rcases List.mem_cons.mp hc with hc | hc
          · have := congrArg List.length hc
            rw [room_code_len, code3_len] at this
            omega
          · rcases List.mem_singleton.mp hc with hc
            have hcj : code3 j = code3 i := by
              have := List.append_cancel_left hc
              exact this
            exact hci_notmap (hcj ▸ List.mem_map_of_mem code3 hj)
    · rw [List.map_cons] at hnd
      exact (List.nodup_cons.mp hnd).2
    · simp only [List.length_append, List.length_cons, List.length_nil]
      omega

theorem ceS1_eq :
    ((List.range 2499).map (fun i => rmnbrRoom (code3 i))).foldl (autoProcessRoom ceStateC4) [] =
      (List.range 2499).flatMap (fun i => [code3 i, lit ("room:") ++ code3 i]) := by
  rw [fold_rmnbrRooms (List.range 2499) []]
  · exact List.nil_append _
  · intro i _
    exact ⟨List.not_mem_nil _, List.not_mem_nil _⟩
  · refine (List.nodup_range 2499).map_on ?_
    intro x hx y hy h
    rw [List.mem_range] at hx hy
    exact code3_inj x y (by omega) (by omega) h
  · rw [List.length_nil, List.length_range]
    norm_num

theorem ceS1_length :
    ((List.range 2499).flatMap (fun i => [code3 i, lit ("room:") ++ code3 i])).length = 4998 := by
  rw [interleave_length, List.length_range]

theorem ceS1_mem_shape (y : Str)
    (hy : y ∈ (List.range 2499).flatMap (fun i => [code3 i, lit ("room:") ++ code3 i])) :
    (∃ i, y = code3 i) ∨ (∃ i, y = lit ("room:") ++ code3 i) := by
  rw [mem_interleave] at hy
  obtain ⟨i, _, h | h⟩ := hy
  · exact Or.inl ⟨i, h⟩
  · exact Or.inr ⟨i, h⟩

theorem AAA_fresh (y : Str)
    (hy : y ∈ (List.range 2499).flatMap (fun i => [code3 i, lit ("room:") ++ code3 i])) :
    ¬ y = lit ("AAA") := by
  intro hAAA
  rcases ceS1_mem_shape y hy with ⟨i, h⟩ | ⟨i, h⟩
  · rw [hAAA] at h
    have hhead : ('A' : Char) = abc (i / 676) := by
      have := congrArg (fun l => l.headD 'z') h
      simpa [lit, code3] using this
    have := abc_range (i / 676)
    rw [← hhead] at this
    have hA : ('A' : Char).toNat = 65 := rfl
    omega
  · rw [hAAA] at h
    have := congrArg List.length h
    rw [room_code_len] at this
    simp [lit] at this

theorem AAA_step :
    autoProcessRoom ceStateC4
        ((List.range 2499).flatMap (fun i => [code3 i, lit ("room:") ++ code3 i]))
        (rmnbrRoom (lit ("AAA"))) =
      (List.range 2499).flatMap (fun i => [code3 i, lit ("room:") ++ code3 i]) ++
        [lit ("AAA")] := by
  have hlen := ceS1_length
  unfold autoProcessRoom autocompleteLimit
  rw [if_neg (by rw [hlen]; norm_num)]
  rw [createUnifiedTags_rmnbrRoom (lit ("AAA")) (by decide)]
  have hlow : lowerStr (lit ("AAA")) = code3 0 := by decide
  rw [hlow]
  dsimp only
  rw [List.foldl_cons, List.foldl_cons, List.foldl_nil]
  have hmem0 : code3 0 ∈ (List.range 2499).flatMap
      (fun i => [code3 i, lit ("room:") ++ code3 i]) :=
    (mem_interleave _ _).mpr ⟨0, List.mem_range.mpr (by norm_num), Or.inl rfl⟩
  have hmemr : lit ("room:") ++ code3 0 ∈ (List.range 2499).flatMap
      (fun i => [code3 i, lit ("room:") ++ code3 i]) :=
    (mem_interleave _ _).mpr ⟨0, List.mem_range.mpr (by norm_num), Or.inr rfl⟩
  have step1 : addTagAndValue
      ((List.range 2499).flatMap (fun i => [code3 i, lit ("room:") ++ code3 i]))
      (code3 0) =
      (List.range 2499).flatMap (fun i => [code3 i, lit ("room:") ++ code3 i]) := by
    unfold addTagAndValue autocompleteLimit
    rw [if_pos (by rw [hlen]; norm_num), addSet_of_mem _ _ hmem0, code3_contains_colon]
    simp
  have step2 : addTagAndValue
      ((List.range 2499).flatMap (fun i => [code3 i, lit ("room:") ++ code3 i]))
      (lit ("room:") ++ code3 0) =
      (List.range 2499).flatMap (fun i => [code3 i, lit ("room:") ++ code3 i]) := by
    unfold addTagAndValue autocompleteLimit
    rw [if_pos (by rw [hlen]; norm_num), addSet_of_mem _ _ hmemr, contains_colon_append,
      if_pos rfl]
    rw [splitValue_room _ (code3_ne_colon 0)]
    exact addSet_of_mem _ _ hmem0
  rw [step1, step2]
  rw [if_pos ⟨by decide, by rw [hlen]; norm_num⟩]
  refine addSet_of_not_mem _ _ ?_
  intro hmem
  exact AAA_fresh _ hmem rfl

theorem floor_step :
    autoProcessRoom ceStateC4
        ((List.range 2499).flatMap (fun i => [code3 i, lit ("room:") ++ code3 i]) ++
          [lit ("AAA")]) floorRoomC4 =
      ((List.range 2499).flatMap (fun i => [code3 i, lit ("room:") ++ code3 i]) ++
          [lit ("AAA")]) ++ [lit ("floor:5"), lit ("5")] := by
  have hlen1 := ceS1_length
  have hlen : ((List.range 2499).flatMap (fun i => [code3 i, lit ("room:") ++ code3 i]) ++
      [lit ("AAA")]).length = 4999 := by
    rw [List.length_append, hlen1]
    rfl
  have hshape : ∀ y ∈ (List.range 2499).flatMap
      (fun i => [code3 i, lit ("room:") ++ code3 i]) ++ [lit ("AAA")],
      y.length = 3 ∨ y.length = 8 := by
    intro y hy
    rcases List.mem_append.mp hy with hy | hy
    · rcases ceS1_mem_shape y hy with ⟨i, rfl⟩ | ⟨i, rfl⟩
      · exact Or.inl (code3_len i)
      · exact Or.inr (room_code_len i)
    · rcases List.mem_singleton.mp hy with rfl
      exact Or.inl rfl
  unfold autoProcessRoom autocompleteLimit
  rw [if_neg (by rw [hlen]; norm_num)]
  have htags : createUnifiedTags ceStateC4 floorRoomC4 =
      [lit ("floor:5"), lit ("f5"), lit ("level:5"), lit ("5")] := by decide
  rw [htags]
  rw [List.foldl_cons, List.foldl_cons, List.foldl_cons, List.foldl_cons, List.foldl_nil]
  have hf5fresh : lit ("floor:5") ∉ (List.range 2499).flatMap
      (fun i => [code3 i, lit ("room:") ++ code3 i]) ++ [lit ("AAA")] := by
    intro hc
    rcases hshape _ hc with h | h
    · have : (lit ("floor:5")).length = 7 := rfl
      omega
    · have : (lit ("floor:5")).length = 7 := rfl
      omega
  have step1 : addTagAndValue
      ((List.range 2499).flatMap (fun i => [code3 i, lit ("room:") ++ code3 i]) ++
        [lit ("AAA")]) (lit ("floor:5")) =
      ((List.range 2499).flatMap (fun i => [code3 i, lit ("room:") ++ code3 i]) ++
        [lit ("AAA")]) ++ [lit ("floor:5"), lit ("5")] := by
    unfold addTagAndValue autocompleteLimit
    rw [if_pos (by rw [hlen]; norm_num), addSet_of_not_mem _ _ hf5fresh]
    rw [show (lit ("floor:5")).contains ':' = true from by decide, if_pos rfl]
    rw [show splitValue (lit ("floor:5")) = lit ("5") from by decide]
    have h5fresh : lit ("5") ∉ ((List.range 2499).flatMap
        (fun i => [code3 i, lit ("room:") ++ code3 i]) ++ [lit ("AAA")]) ++
        [lit ("floor:5")] := by
      intro hc
      rcases List.mem_append.mp hc with hc | hc
      · rcases hshape _ hc with h | h
        · have : (lit ("5")).length = 1 := rfl
          omega
        · have : (lit ("5")).length = 1 := rfl
          omega
      · rcases List.mem_singleton.mp hc with hc
        have := congrArg List.length hc
        simp [lit] at this
    rw [addSet_of_not_mem _ _ h5fresh]
    simp
  rw [step1]
  have hlen4 : (((List.range 2499).flatMap (fun i => [code3 i, lit ("room:") ++ code3 i]) ++
      [lit ("AAA")]) ++ [lit ("floor:5"), lit ("5")]).length = 5001 := by
    rw [List.length_append, hlen]
    rfl
  have stepfull : ∀ t : Str, addTagAndValue
      (((List.range 2499).flatMap (fun i => [code3 i, lit ("room:") ++ code3 i]) ++
        [lit ("AAA")]) ++ [lit ("floor:5"), lit ("5")]) t =
      ((List.range 2499).flatMap (fun i => [code3 i, lit ("room:") ++ code3 i]) ++
        [lit ("AAA")]) ++ [lit ("floor:5"), lit ("5")] := by
    intro t
    unfold addTagAndValue autocompleteLimit
    rw [if_neg (by rw [hlen4]; norm_num)]
  rw [stepfull, stepfull, stepfull]
  rw [if_neg (fun hc => hc.1 rfl)]

/-- Claim C4 counterexample: on the dataset of `ceStateC4` the autocomplete
list has 5001 entries, exceeding the claimed 5000-entry cap — the room whose
first unified tag `"floor:5"` is accepted at size 4999 also gets its bare
value `"5"` added past the cap, because the size guard runs once before both
adds. -/
theorem buildUnifiedAutocomplete_exceeds_cap :
    5000 < (buildUnifiedAutocomplete ceStateC4).length := by
  unfold buildUnifiedAutocomplete sortStr
  rw [(List.perm_insertionSort strLeP _).length_eq]
  have hpd : ceStateC4.processedData =
      (List.range 2499).map (fun i => rmnbrRoom (code3 i)) ++
        [rmnbrRoom (lit ("AAA")), floorRoomC4] := rfl
  rw [hpd, List.foldl_append, ceS1_eq, List.foldl_cons, List.foldl_cons, List.foldl_nil,
    AAA_step, floor_step]
  rw [List.length_append, List.length_append, ceS1_length]
  norm_num
